import Mathlib

/-!
Verification of `zope_test_janitor.py` (mgedmin/zope-test-janitor) against its
natural-language specification.

The Python source is shallowly embedded below.  Strings are Lean `String`s
(lists of characters); Python's whitespace/digit character classes are modelled
over their ASCII subsets, which covers every character occurring in the data the
program manipulates.  Network fetching and HTML parsing are modelled by an
environment (`Env`) mapping URLs to already-parsed page contents, exactly the
information the scrapers read from an `lxml` tree (`//title/text()` results and
`div.result` step elements).  A Python function that can raise (IndexError from
`[0]` on an empty list, AssertionError from `assert`) is embedded as an
`Except Unit` value, `.error ()` standing for the raised exception.
-/

namespace Janitor

/-- ASCII whitespace recognised by Python's `str.strip` / `str.rstrip` and `\s`. -/
def isPySpace (c : Char) : Bool :=
  c = ' ' || c = '\t' || c = '\n' || c = '\r' || c = '\x0b' || c = '\x0c'

/-- Python `str.strip()` on the character list (ASCII whitespace). -/
def pyStripL (l : List Char) : List Char :=
  ((l.dropWhile isPySpace).reverse.dropWhile isPySpace).reverse

/-- Python `str.rstrip()` on the character list (ASCII whitespace). -/
def pyRStripL (l : List Char) : List Char :=
  (l.reverse.dropWhile isPySpace).reverse

/-- Python `str.strip()`. -/
def pyStrip (s : String) : String := ⟨pyStripL s.data⟩

/-- Python `str.rstrip()`. -/
def pyRStrip (s : String) : String := ⟨pyRStripL s.data⟩

/-- Python `s.endswith(suf)`. -/
def pyEndsWith (s suf : String) : Bool := decide (suf.data <:+ s.data)

/-- Python `s.startswith(pre)`. -/
def pyStartsWith (s p : String) : Bool := decide (p.data <+: s.data)

/-- Python `needle in hay` (substring containment). -/
def strContains (hay needle : String) : Bool := decide (needle.data <:+: hay.data)

/-- Splitting `s.rpartition(c)` at the last occurrence of `c`:
`some (before, after)` when `c` occurs, `none` otherwise. -/
def revSplitLast (c : Char) (l : List Char) : Option (List Char × List Char) :=
  let r := l.reverse
  match r.dropWhile (fun a => a != c) with
  | [] => none
  | _ :: rest => some (rest.reverse, (r.takeWhile (fun a => a != c)).reverse)

/-- Python `s.rpartition(c)[0]`: text before the last `c`, `""` when `c` is absent. -/
def rpartBefore (s : String) (c : Char) : String :=
  match revSplitLast c s.data with
  | none => ""
  | some (b, _) => ⟨b⟩

/-- Python `s.rpartition(c)[-1]`: text after the last `c`, the whole string when
`c` is absent. -/
def rpartAfter (s : String) (c : Char) : String :=
  match revSplitLast c s.data with
  | none => s
  | some (_, a) => ⟨a⟩

/-- Python `s.partition(c)[-1]`: text after the first `c`, `""` when `c` is absent. -/
def partAfterFirst (s : String) (c : Char) : String :=
  match s.data.dropWhile (fun a => a != c) with
  | [] => ""
  | _ :: rest => ⟨rest⟩

/-- Python `s.partition(c)[0]`: text before the first `c`, the whole string when
`c` is absent. -/
def partBeforeFirst (s : String) (c : Char) : String :=
  ⟨s.data.takeWhile (fun a => a != c)⟩

/-- The maximal newline-free suffix of `s`: the trailing line (text after the
last `'\n'`, or all of `s` when it has no newline). -/
def trailingLine (s : String) : String :=
  ⟨(s.data.reverse.takeWhile (fun a => a != '\n')).reverse⟩

/-- `BuildStep = namedtuple('BuildStep', 'title link css_class text')`. -/
structure BuildStep where
  title : String
  link : String
  css_class : String
  text : String
  deriving DecidableEq, Repr

/-- `Failure.buildbot_success`: Python returns `steps and all(step.css_class ==
"success result" for step in steps)`; for an empty list this is the falsy empty
list itself, so we embed the truth value of the returned object. -/
def buildbot_success (steps : List BuildStep) : Bool :=
  !steps.isEmpty && steps.all (fun step => step.css_class == "success result")

/-- `Failure.jenkins_success`: `console_text.rstrip().endswith('Finished: SUCCESS')`. -/
def jenkins_success (console_text : String) : Bool :=
  pyEndsWith (pyRStrip console_text) "Finished: SUCCESS"

/-- One entry of the `KNOWN_FAILURES` table: a literal substring or a compiled
regular expression (embedded as its search predicate). -/
inductive Sig where
  | lit (s : String)
  | pat (search : String → Bool)

/-- One test of the `KNOWN_FAILURES` loop body: `sign.search(text)` for
patterns, `sign in text` for literals. -/
def matchSig (sign : Sig) (text : String) : Bool :=
  match sign with
  | .lit s => strContains text s
  | .pat p => p text

/-- The `for sign, tag in KNOWN_FAILURES` loop of `Failure.analyze_text`,
threading the current tag through each entry. -/
def scanTable (table : List (Sig × String)) (text : String) (tag : Option String) :
    Option String :=
  match table with
  | [] => tag
  | e :: rest => scanTable rest text (if matchSig e.1 text then some e.2 else tag)

/-- `Failure.analyze_text`: returns the (possibly updated) `self.tag`.  The
guard `if not text: return` is the `text = ""` branch; `None` texts are handled
by the callers (embedded as `""`). -/
def analyze_text (table : List (Sig × String)) (tag : Option String) (text : String) :
    Option String :=
  if text = "" then tag else scanTable table text tag

/-- `List.getLast?` of a cons in terms of the tail. -/
theorem getLast?_cons_eq {α : Type} (a : α) (l : List α) :
    (a :: l).getLast? = some (l.getLast?.getD a) := by
  induction l generalizing a with
  | nil => rfl
  | cons b t ih =>
    rw [List.getLast?_cons_cons, ih b]
    simp [ih b]

/-- `scanTable` yields the tag of the last matching table entry, else the
incoming tag. -/
theorem scanTable_eq_lastMatch (table : List (Sig × String)) (text : String) :
    ∀ tag, scanTable table text tag =
      match (table.filter (fun e => matchSig e.1 text)).getLast? with
      | some e => some e.2
      | none => tag := by
  induction table with
  | nil => intro tag; rfl
  | cons e rest ih =>
    intro tag
    rw [scanTable, ih]
    by_cases hm : matchSig e.1 text
    · rw [List.filter_cons_of_pos (by simpa using hm), if_pos hm, getLast?_cons_eq]
      cases hL : (rest.filter (fun e => matchSig e.1 text)).getLast? <;> simp [hL]
    · rw [List.filter_cons_of_neg (by simpa using hm), if_neg hm]

/-- C6: known-failure tagging is last-match-wins: over any nonempty text the
resulting tag is that of the last table entry whose literal substring or
pattern matches, and when no entry matches the incoming tag (absent for a fresh
record) is kept unchanged. -/
theorem c6_last_match_wins (table : List (Sig × String)) (tag : Option String)
    (text : String) (h : text ≠ "") :
    analyze_text table tag text =
      match (table.filter (fun e => matchSig e.1 text)).getLast? with
      | some e => some e.2
      | none => tag := by
  rw [analyze_text, if_neg h]
  exact scanTable_eq_lastMatch table text tag

/-- C6 witness: over the two-entry table `[A, B]` and a text matching both
entries the tag is `B`; the theorem instance evaluates to that concrete tag. -/
theorem c6_last_match_wins_witness :
    ("alpha beta" ≠ "") ∧
      analyze_text [(Sig.lit "alpha", "A"), (Sig.lit "beta", "B")] none "alpha beta" =
        match ([(Sig.lit "alpha", "A"), (Sig.lit "beta", "B")].filter
            (fun e => matchSig e.1 "alpha beta")).getLast? with
        | some e => some e.2
        | none => none :=
  ⟨by decide, c6_last_match_wins _ _ _ (by decide)⟩

/-- C5: buildbot success evaluation is truthy iff the step list is non-empty and
every step carries the success status class; on the empty list it is falsy. -/
theorem c5_buildbot_success_iff :
    (∀ steps : List BuildStep,
      buildbot_success steps = true ↔
        steps ≠ [] ∧ ∀ step ∈ steps, step.css_class = "success result") ∧
    buildbot_success [] = false := by
  refine ⟨fun steps => ?_, rfl⟩
  simp [buildbot_success, List.isEmpty_iff, List.all_eq_true]

/-- `takeWhile` of an all-satisfying block followed by anything. -/
theorem takeWhile_append_of_all {α : Type} (p : α → Bool) (m t : List α)
    (hm : ∀ a ∈ m, p a = true) :
    (m ++ t).takeWhile p = m ++ t.takeWhile p := by
  induction m with
  | nil => rfl
  | cons a l ih =>
    have ha : p a = true := hm a (List.mem_cons_self a l)
    simp only [List.cons_append, List.takeWhile_cons, ha, if_true]
    rw [ih (fun b hb => hm b (List.mem_cons_of_mem a hb))]

/-- A newline-free list is a suffix of `l` iff it is a suffix of `l`'s trailing
newline-free block. -/
theorem suffix_iff_suffix_trailing (m l : List Char)
    (hm : ∀ a ∈ m, (a != '\n') = true) :
    m <:+ l ↔ m <:+ (l.reverse.takeWhile (fun a => a != '\n')).reverse := by
  constructor
  · rintro ⟨t, rfl⟩
    rw [List.reverse_append, takeWhile_append_of_all _ m.reverse _
      (fun a ha => hm a (List.mem_reverse.mp ha))]
    exact ⟨(t.reverse.takeWhile (fun a => a != '\n')).reverse, by
      rw [List.reverse_append, List.reverse_reverse]⟩
  · intro hsuf
    have h1 : (l.reverse.takeWhile (fun a => a != '\n')) <+: l.reverse :=
      List.takeWhile_prefix _
    have h2 := List.reverse_suffix.mpr h1
    rw [List.reverse_reverse] at h2
    exact hsuf.trans h2

/-- C4 counterexample: the console text `"abcFinished: SUCCESS"` is judged
successful by the code, yet its trailing whitespace-stripped line is not equal
to the completion marker, so "successful iff the trailing line equals the
marker" fails. -/
theorem c4_counterexample :
    jenkins_success "abcFinished: SUCCESS" = true ∧
      trailingLine (pyRStrip "abcFinished: SUCCESS") ≠ "Finished: SUCCESS" := by
  constructor
  · decide
  · decide

/-- C4 (amended): a build is judged successful iff the trailing line of the
rstripped console text ends with (has as a suffix, not necessarily equals) the
fixed marker `'Finished: SUCCESS'`; truncated or empty output is failure. -/
theorem c4_success_iff_marker_suffix (s : String) :
    jenkins_success s = true ↔
      "Finished: SUCCESS".data <:+ (trailingLine (pyRStrip s)).data := by
  rw [jenkins_success, pyEndsWith, decide_eq_true_iff, trailingLine]
  exact suffix_iff_suffix_trailing _ _ (by decide)

/-! ### URL shapes

`BUILDER_URL` is the regex ".*" + "/builders/" + "[^/]+" + "/builds/" + "-?"
+ "\d+$"; `JENKINS_URL` is ".*" + "/job/" + "[^/]+" + "/" + "\d+" + "/$".
Both are used through `re.match` (anchored at the start).  `.` and `\d` do
not match a newline, `[^/]` does, and `$` also matches just before one
trailing newline; the checkers below reproduce those semantics by chopping
one trailing newline, splitting on `'/'` and constraining the resulting
components. -/

/-- Drop the single trailing newline that Python's `$` anchor may sit before. -/
def chompNL (l : List Char) : List Char :=
  if l.getLast? = some '\n' then l.dropLast else l

/-- Split a character list on `'/'` (like Python `str.split('/')`):
`splitSlash [] = [[]]` and separators delimit possibly-empty components. -/
def splitSlash : List Char → List (List Char)
  | [] => [[]]
  | c :: cs =>
    if c = '/' then [] :: splitSlash cs
    else
      match splitSlash cs with
      | [] => [[c]]
      | h :: t => (c :: h) :: t

/-- Join components with `'/'`, the inverse of `splitSlash`. -/
def joinSlash : List (List Char) → List Char
  | [] => []
  | [x] => x
  | x :: y :: t => x ++ '/' :: joinSlash (y :: t)

/-- The regex fragment `-?\d+` as a component test. -/
def numSeg (l : List Char) : Bool :=
  match l with
  | '-' :: rest => !rest.isEmpty && rest.all Char.isDigit
  | _ => !l.isEmpty && l.all Char.isDigit

/-- `BUILDER_URL.match(s)` as a Bool: the chomped string splits on `'/'` into
`⟨newline-free text⟩ ++ ["builders", job, "builds", -?digits]` with `job`
non-empty. -/
def matchBuilderUrl (s : String) : Bool :=
  match (splitSlash (chompNL s.data)).reverse with
  | n :: b :: job :: bs :: rest =>
    numSeg n && b == "builds".data && !job.isEmpty && bs == "builders".data &&
      !rest.isEmpty && rest.all (fun r => r.all (fun c => c != '\n'))
  | _ => false

/-- `JENKINS_URL.match(s)` as a Bool: the chomped string splits on `'/'` into
`⟨newline-free text⟩ ++ ["job", job, digits, ""]` with `job` non-empty (the
trailing empty component is the required trailing slash). -/
def matchJenkinsUrl (s : String) : Bool :=
  match (splitSlash (chompNL s.data)).reverse with
  | e :: n :: job :: j :: rest =>
    e.isEmpty && (!n.isEmpty && n.all Char.isDigit) && !job.isEmpty &&
      j == "job".data && !rest.isEmpty && rest.all (fun r => r.all (fun c => c != '\n'))
  | _ => false

/-- `Failure.is_buildbot_link`: `bool(url and BUILDER_URL.match(url))`. -/
def is_buildbot_link (url : Option String) : Bool :=
  match url with
  | none => false
  | some u => !(u == "") && matchBuilderUrl u

/-- `Failure.is_jenkins_link`: `bool(url and JENKINS_URL.match(url))`. -/
def is_jenkins_link (url : Option String) : Bool :=
  match url with
  | none => false
  | some u => !(u == "") && matchJenkinsUrl u

/-- Python `str.isdigit()` (ASCII digits). -/
def pyIsDigit (s : String) : Bool := !s.data.isEmpty && s.data.all Char.isDigit

/-- `Failure.parse_buildbot_link`; its `assert self.is_buildbot_link(url)` is
the `none` (raising) branch. -/
def parse_buildbot_link (url : String) (latest : Bool) : Option (String × String) :=
  if is_buildbot_link (some url) then
    if latest then some (rpartBefore url '/' ++ "/-1", "latest")
    else some (url, rpartAfter url '/')
  else none

/-- `Failure.normalize_buildbot_url`; its two `assert`s are the `none`
(raising) branch. -/
def normalize_buildbot_url (url : String) (build_number : String) : Option String :=
  if pyEndsWith url "/-1" && pyIsDigit build_number then
    some (rpartBefore url '/' ++ "/" ++ build_number)
  else none

/-- `Failure.parse_jenkins_link`; its `assert self.is_jenkins_link(url)` is the
`none` (raising) branch. -/
def parse_jenkins_link (url : String) (latest : Bool) : Option (String × String) :=
  if is_jenkins_link (some url) then
    if latest then
      some (rpartBefore (rpartBefore url '/') '/' ++ "/lastBuild/", "latest")
    else some (url, rpartAfter (rpartBefore url '/') '/')
  else none

/-- `Failure.normalize_jenkins_url`; its two `assert`s are the `none`
(raising) branch. -/
def normalize_jenkins_url (url : String) (build_number : String) : Option String :=
  if pyEndsWith url "/lastBuild/" && pyIsDigit build_number then
    some (rpartBefore (rpartBefore url '/') '/' ++ "/" ++ build_number ++ "/")
  else none

/-! ### Lemmas about `splitSlash` / `rpartition` -/

/-- `dropWhile` of an all-satisfying block followed by anything. -/
theorem dropWhile_append_of_all {α : Type} (p : α → Bool) (m t : List α)
    (hm : ∀ a ∈ m, p a = true) :
    (m ++ t).dropWhile p = t.dropWhile p := by
  induction m with
  | nil => rfl
  | cons a l ih =>
    have ha : p a = true := hm a (List.mem_cons_self a l)
    simp only [List.cons_append, List.dropWhile_cons, ha, if_true]
    exact ih (fun b hb => hm b (List.mem_cons_of_mem a hb))

/-- `revSplitLast` at an explicit last occurrence. -/
theorem revSplitLast_append (xs ys : List Char) (hy : '/' ∉ ys) :
    revSplitLast '/' (xs ++ '/' :: ys) = some (xs, ys) := by
  have hall : ∀ a ∈ ys.reverse, (a != '/') = true := by
    intro a ha
    simp only [bne_iff_ne, ne_eq]
    intro h
    exact hy (h ▸ List.mem_reverse.mp ha)
  have hrev : (xs ++ '/' :: ys).reverse = ys.reverse ++ '/' :: xs.reverse := by
    simp
  rw [revSplitLast]
  simp only [hrev]
  rw [dropWhile_append_of_all _ _ _ hall, List.dropWhile_cons]
  rw [takeWhile_append_of_all _ _ _ hall, List.takeWhile_cons]
  simp

/-- `rpartition('/')[0]` at an explicit last occurrence. -/
theorem rpartBefore_append (xs ys : List Char) (hy : '/' ∉ ys) :
    rpartBefore ⟨xs ++ '/' :: ys⟩ '/' = ⟨xs⟩ := by
  rw [rpartBefore]
  simp [revSplitLast_append xs ys hy]

/-- `rpartition('/')[-1]` at an explicit last occurrence. -/
theorem rpartAfter_append (xs ys : List Char) (hy : '/' ∉ ys) :
    rpartAfter ⟨xs ++ '/' :: ys⟩ '/' = ⟨ys⟩ := by
  rw [rpartAfter]
  simp [revSplitLast_append xs ys hy]

/-- `splitSlash` never returns the empty list of components. -/
theorem splitSlash_ne_nil (l : List Char) : splitSlash l ≠ [] := by
  match l with
  | [] => simp [splitSlash]
  | c :: cs =>
    rw [splitSlash]
    by_cases h : c = '/'
    · simp [h]
    · rw [if_neg h]
      rcases hs : splitSlash cs with _ | ⟨x, t⟩ <;> simp

/-- A slash-free list splits into a single component. -/
theorem splitSlash_no_slash (l : List Char) (h : '/' ∉ l) : splitSlash l = [l] := by
  induction l with
  | nil => rfl
  | cons c cs ih =>
    have hc : ¬ c = '/' := fun hc => h (hc ▸ List.mem_cons_self c cs)
    rw [splitSlash, if_neg hc, ih (fun hm => h (List.mem_cons_of_mem c hm))]

/-- Splitting around the first slash when the head component is slash-free. -/
theorem splitSlash_cons_slash (x r : List Char) (hx : '/' ∉ x) :
    splitSlash (x ++ '/' :: r) = x :: splitSlash r := by
  induction x with
  | nil => simp [splitSlash]
  | cons c cs ih =>
    have hc : ¬ c = '/' := fun hc => hx (hc ▸ List.mem_cons_self c cs)
    rw [List.cons_append, splitSlash, if_neg hc,
      ih (fun hm => hx (List.mem_cons_of_mem c hm))]

/-- `joinSlash` undoes `splitSlash`. -/
theorem joinSlash_splitSlash (l : List Char) : joinSlash (splitSlash l) = l := by
  induction l with
  | nil => rfl
  | cons c cs ih =>
    rw [splitSlash]
    by_cases h : c = '/'
    · rw [if_pos h]
      rcases hs : splitSlash cs with _ | ⟨x, t⟩
      · exact absurd hs (splitSlash_ne_nil cs)
      · rw [hs] at ih
        rw [joinSlash, h, ih]
        rfl
    · rw [if_neg h]
      rcases hs : splitSlash cs with _ | ⟨x, t⟩
      · exact absurd hs (splitSlash_ne_nil cs)
      · rw [hs] at ih
        rcases t with _ | ⟨y, t'⟩
        · rw [joinSlash] at ih ⊢
          rw [ih]
        · rw [joinSlash] at ih ⊢
          rw [List.cons_append, ih]

/-- Every component produced by `splitSlash` is slash-free. -/
theorem splitSlash_mem_no_slash (l : List Char) :
    ∀ x ∈ splitSlash l, '/' ∉ x := by
  induction l with
  | nil =>
    intro x hx
    rw [splitSlash, List.mem_singleton] at hx
    subst hx
    simp
  | cons c cs ih =>
    intro x hx
    rw [splitSlash] at hx
    by_cases h : c = '/'
    · rw [if_pos h, List.mem_cons] at hx
      rcases hx with hx | hx
      · subst hx; simp
      · exact ih x hx
    · rw [if_neg h] at hx
      rcases hs : splitSlash cs with _ | ⟨y, t⟩
      · exact absurd hs (splitSlash_ne_nil cs)
      · rw [hs, List.mem_cons] at hx
        rcases hx with hx | hx
        · subst hx
          intro hm
          rw [List.mem_cons] at hm
          rcases hm with hm | hm
          · exact h hm.symm
          · exact ih y (hs ▸ List.mem_cons_self y t) hm
        · exact ih x (hs ▸ List.mem_cons_of_mem y hx)

/-- `splitSlash` undoes `joinSlash` on slash-free components. -/
theorem splitSlash_joinSlash (cs : List (List Char)) (hne : cs ≠ [])
    (h : ∀ x ∈ cs, '/' ∉ x) : splitSlash (joinSlash cs) = cs := by
  induction cs with
  | nil => exact absurd rfl hne
  | cons x t ih =>
    rcases t with _ | ⟨y, t'⟩
    · rw [joinSlash, splitSlash_no_slash x (h x (List.mem_cons_self x _))]
    · rw [joinSlash, splitSlash_cons_slash _ _ (h x (List.mem_cons_self x _)),
        ih (by simp) (fun z hz => h z (List.mem_cons_of_mem x hz))]

/-- Appending one more component to a non-empty `joinSlash`. -/
theorem joinSlash_concat (cs : List (List Char)) (hne : cs ≠ []) (x : List Char) :
    joinSlash (cs ++ [x]) = joinSlash cs ++ '/' :: x := by
  induction cs with
  | nil => exact absurd rfl hne
  | cons y t ih =>
    rcases t with _ | ⟨z, t'⟩
    · simp [joinSlash]
    · rw [List.cons_append, List.cons_append, joinSlash]
      have h2 := ih (by simp)
      rw [List.cons_append] at h2
      rw [h2, joinSlash]
      simp

/-- A digit character is neither a slash nor a newline. -/
theorem digit_char_ne (c : Char) (hc : c.isDigit = true) : c ≠ '/' ∧ c ≠ '\n' := by
  constructor
  · intro he
    rw [he] at hc
    exact absurd hc (by decide)
  · intro he
    rw [he] at hc
    exact absurd hc (by decide)

/-- Characters of a `-?\d+` component are digits or the sign; in particular it
contains no slash and no newline. -/
theorem numSeg_no_slash {l : List Char} (h : numSeg l = true) :
    ∀ c ∈ l, c ≠ '/' ∧ c ≠ '\n' := by
  intro c hc
  unfold numSeg at h
  split at h
  · next rest =>
    rw [List.mem_cons] at hc
    rcases hc with hc | hc
    · subst hc
      exact ⟨by decide, by decide⟩
    · exact digit_char_ne c ((List.all_eq_true.mp ((Bool.and_eq_true _ _).mp h).2) _ hc)
  · next =>
    exact digit_char_ne c ((List.all_eq_true.mp ((Bool.and_eq_true _ _).mp h).2) _ hc)

/-- Strings with equal character data are equal. -/
theorem str_ext {s t : String} (h : s.data = t.data) : s = t := by
  cases s
  cases t
  exact congrArg String.mk h

/-- `String.append` concatenates the character data. -/
theorem str_data_append (s t : String) : (s ++ t).data = s.data ++ t.data := by
  cases s
  cases t
  rfl

/-- A string with non-empty data is not the empty string. -/
theorem str_ne_empty {s : String} (h : s.data ≠ []) : s ≠ "" := by
  intro he
  rw [he] at h
  exact h rfl

/-- A non-empty list is not made empty by `isEmpty`. -/
theorem ne_nil_of_isEmpty_false {α : Type} {l : List α} (h : l.isEmpty = false) :
    l ≠ [] := by
  intro he
  subst he
  simp at h

/-- The final element of a list is a member. -/
theorem getLast?_mem' {α : Type} {l : List α} {a : α} (h : l.getLast? = some a) :
    a ∈ l := by
  induction l with
  | nil => simp at h
  | cons b t ih =>
    rcases t with _ | ⟨c, t'⟩
    · simp at h
      simp [h]
    · rw [List.getLast?_cons_cons] at h
      exact List.mem_cons_of_mem b (ih h)

/-- A list is its chomped form, possibly with one trailing newline. -/
theorem chompNL_decomp (l : List Char) :
    l = chompNL l ∨ l = chompNL l ++ ['\n'] := by
  unfold chompNL
  split
  · next h =>
    right
    have hne : l ≠ [] := by
      intro he
      rw [he] at h
      simp at h
    have hd : l.dropLast ++ [l.getLast hne] = l := List.dropLast_append_getLast hne
    have hlast : l.getLast hne = '\n' := by
      rw [List.getLast?_eq_getLast l hne] at h
      exact Option.some.inj h
    conv_lhs => rw [← hd]
    rw [hlast]
  · left
    rfl

/-- Chomping is the identity when the last character is not a newline. -/
theorem chompNL_id {l : List Char} (h : ∀ c, l.getLast? = some c → c ≠ '\n') :
    chompNL l = l := by
  unfold chompNL
  split
  · next he => exact absurd rfl (h '\n' he)
  · rfl

/-- Destructor for a successful `matchBuilderUrl`. -/
theorem matchBuilderUrl_elim {s : String} (h : matchBuilderUrl s = true) :
    ∃ n job rest, (splitSlash (chompNL s.data)).reverse
        = n :: "builds".data :: job :: "builders".data :: rest ∧
      numSeg n = true ∧ job ≠ [] ∧ rest ≠ [] ∧
      ∀ r ∈ rest, ∀ c ∈ r, c ≠ '\n' := by
  unfold matchBuilderUrl at h
  split at h
  · next n b job bs rest heq =>
    simp only [Bool.and_eq_true, beq_iff_eq, Bool.not_eq_true', List.all_eq_true,
      bne_iff_ne, ne_eq] at h
    obtain ⟨⟨⟨⟨⟨hn, hb⟩, hjob⟩, hbs⟩, hrest⟩, hnl⟩ := h
    exact ⟨n, job, rest, by rw [heq, hb, hbs], hn, ne_nil_of_isEmpty_false hjob,
      ne_nil_of_isEmpty_false hrest, hnl⟩
  · next => simp at h

/-- Constructor for `matchBuilderUrl`. -/
theorem matchBuilderUrl_intro {s : String} {n job : List Char}
    {rest : List (List Char)}
    (heq : (splitSlash (chompNL s.data)).reverse
      = n :: "builds".data :: job :: "builders".data :: rest)
    (hn : numSeg n = true) (hjob : job ≠ []) (hrest : rest ≠ [])
    (hnl : ∀ r ∈ rest, ∀ c ∈ r, c ≠ '\n') : matchBuilderUrl s = true := by
  have h1 : (!job.isEmpty) = true := by
    rcases job with _ | ⟨c, t⟩
    · exact absurd rfl hjob
    · rfl
  have h2 : (!rest.isEmpty) = true := by
    rcases rest with _ | ⟨r, t⟩
    · exact absurd rfl hrest
    · rfl
  have h3 : rest.all (fun r => r.all (fun c => c != '\n')) = true := by
    rw [List.all_eq_true]
    intro r hr
    rw [List.all_eq_true]
    intro c hc
    simpa using hnl r hr c hc
  unfold matchBuilderUrl
  rw [heq]
  show (numSeg n && "builds".data == "builds".data && !job.isEmpty &&
      "builders".data == "builders".data && !rest.isEmpty &&
      rest.all (fun r => r.all (fun c => c != '\n'))) = true
  rw [hn, h1, h2, h3]
  simp

/-- Core of the Provider-A "latest" algebra: any URL matching the buildbot
shape has the form `P ++ "/" ++ n`, its `rpartition('/')[0]` is `P`, and for
any `-?digits` final segment `m` the URL `P ++ "/" ++ m` again matches the
shape with the same `rpartition('/')[0]`. -/
theorem builder_latest_core {u : String} (h : matchBuilderUrl u = true) :
    ∃ P : List Char,
      rpartBefore u '/' = ⟨P⟩ ∧
      ∀ m : String, numSeg m.data = true →
        matchBuilderUrl (⟨P⟩ ++ "/" ++ m) = true ∧
        rpartBefore (⟨P⟩ ++ "/" ++ m) '/' = ⟨P⟩ ∧
        (⟨P⟩ ++ "/" ++ m : String) ≠ "" := by
  obtain ⟨n, job, rest, hrev, hn, hjob, hrest, hnl⟩ := matchBuilderUrl_elim h
  have hps : splitSlash (chompNL u.data)
      = (rest.reverse ++ ["builders".data, job, "builds".data]) ++ [n] := by
    have h2 := congrArg List.reverse hrev
    rw [List.reverse_reverse] at h2
    rw [h2]
    simp
  have hcs_ne : (rest.reverse ++ ["builders".data, job, "builds".data]) ≠ [] := by
    simp
  have hchomp : chompNL u.data
      = joinSlash (rest.reverse ++ ["builders".data, job, "builds".data]) ++ '/' :: n := by
    rw [← joinSlash_splitSlash (chompNL u.data), hps, joinSlash_concat _ hcs_ne]
  have hmem : ∀ x ∈ rest.reverse ++ ["builders".data, job, "builds".data], '/' ∉ x := by
    intro x hx
    refine splitSlash_mem_no_slash (chompNL u.data) x ?_
    rw [hps]
    exact List.mem_append_left _ hx
  refine ⟨joinSlash (rest.reverse ++ ["builders".data, job, "builds".data]), ?_, ?_⟩
  · -- rpartition of the original URL
    obtain hu | hu := chompNL_decomp u.data
    · have hu2 : u = ⟨joinSlash (rest.reverse ++ ["builders".data, job, "builds".data])
          ++ '/' :: n⟩ := str_ext (by rw [hu, hchomp])
      rw [hu2]
      exact rpartBefore_append _ _ (fun hm => ((numSeg_no_slash hn) _ hm).1 rfl)
    · have hu2 : u = ⟨joinSlash (rest.reverse ++ ["builders".data, job, "builds".data])
          ++ '/' :: (n ++ ['\n'])⟩ := by
        refine str_ext ?_
        rw [hu, hchomp]
        simp
      rw [hu2]
      refine rpartBefore_append _ _ ?_
      intro hm
      rw [List.mem_append] at hm
      rcases hm with hm | hm
      · exact ((numSeg_no_slash hn) _ hm).1 rfl
      · simp at hm
  · -- the rebuilt URL with a fresh final segment
    intro m hm
    have hdata : (⟨joinSlash (rest.reverse ++ ["builders".data, job, "builds".data])⟩
        ++ "/" ++ m : String).data
        = joinSlash (rest.reverse ++ ["builders".data, job, "builds".data])
          ++ '/' :: m.data := by
      rw [str_data_append, str_data_append]
      simp
    have hm_ne : m.data ≠ [] := by
      intro he
      rw [he] at hm
      exact absurd hm (by decide)
    have hm_noslash : '/' ∉ m.data := fun hc => ((numSeg_no_slash hm) _ hc).1 rfl
    have hchomp2 : chompNL (joinSlash (rest.reverse ++ ["builders".data, job, "builds".data])
        ++ '/' :: m.data)
        = joinSlash (rest.reverse ++ ["builders".data, job, "builds".data])
          ++ '/' :: m.data := by
      refine chompNL_id ?_
      intro c hc
      have h2 : ('/' :: m.data : List Char) ≠ [] := by simp
      rw [List.getLast?_append_of_ne_nil _ h2] at hc
      have hcm : c ∈ '/' :: m.data := getLast?_mem' hc
      rw [List.mem_cons] at hcm
      rcases hcm with hcm | hcm
      · subst hcm
        decide
      · exact ((numSeg_no_slash hm) _ hcm).2
    refine ⟨?_, ?_, ?_⟩
    · refine matchBuilderUrl_intro ?_ hm hjob hrest hnl
      rw [hdata, hchomp2]
      rw [show joinSlash (rest.reverse ++ ["builders".data, job, "builds".data])
          ++ '/' :: m.data
          = joinSlash ((rest.reverse ++ ["builders".data, job, "builds".data])
            ++ [m.data]) from (joinSlash_concat _ hcs_ne _).symm]
      have hns : ∀ x ∈ (rest.reverse ++ ["builders".data, job, "builds".data])
          ++ [m.data], '/' ∉ x := by
        intro x hx
        rw [List.mem_append] at hx
        rcases hx with hx | hx
        · exact hmem x hx
        · rw [List.mem_singleton] at hx
          subst hx
          exact hm_noslash
      rw [splitSlash_joinSlash _ (by simp) hns]
      simp
    · have hstr : (⟨joinSlash (rest.reverse ++ ["builders".data, job, "builds".data])⟩
          ++ "/" ++ m : String)
          = ⟨joinSlash (rest.reverse ++ ["builders".data, job, "builds".data])
            ++ '/' :: m.data⟩ := str_ext (by rw [hdata])
      rw [hstr]
      exact rpartBefore_append _ _ hm_noslash
    · refine str_ne_empty ?_
      rw [hdata]
      simp

/-- `pyIsDigit` strings are valid `-?\d+` segments. -/
theorem pyIsDigit_numSeg {s : String} (h : pyIsDigit s = true) :
    numSeg s.data = true := by
  rw [pyIsDigit, Bool.and_eq_true] at h
  obtain ⟨hne, hall⟩ := h
  unfold numSeg
  split
  · next rest heq =>
    exfalso
    have : ('-' : Char).isDigit = true := by
      refine (List.all_eq_true.mp hall) '-' ?_
      rw [heq]
      exact List.mem_cons_self _ _
    exact absurd this (by decide)
  · next =>
    rw [Bool.and_eq_true]
    exact ⟨hne, hall⟩

/-- C8: for every URL matching the Provider-A shape, deriving the latest URL,
normalizing it back to any concrete (digit) build number, and deriving the
latest URL from the result yields the original latest URL. -/
theorem c8_latest_roundtrip (url bn : String)
    (hA : matchBuilderUrl url = true) (hd : pyIsDigit bn = true) :
    ∃ L R : String,
      parse_buildbot_link url true = some (L, "latest") ∧
      normalize_buildbot_url L bn = some R ∧
      parse_buildbot_link R true = some (L, "latest") := by
  obtain ⟨P, hbefore, hgen⟩ := builder_latest_core hA
  obtain ⟨hmatch1, hbef1, hne1⟩ := hgen "-1" (by decide)
  obtain ⟨hmatchR, hbefR, hneR⟩ := hgen bn (pyIsDigit_numSeg hd)
  have hbridge : (⟨P⟩ ++ "/-1" : String) = ⟨P⟩ ++ "/" ++ "-1" := by
    refine str_ext ?_
    rw [str_data_append, str_data_append, str_data_append, List.append_assoc]
    congr 1
  have hne_u : url ≠ "" := by
    intro he
    rw [he] at hA
    exact absurd hA (by decide)
  refine ⟨⟨P⟩ ++ "/-1", ⟨P⟩ ++ "/" ++ bn, ?_, ?_, ?_⟩
  · simp [parse_buildbot_link, is_buildbot_link, hA, hne_u, hbefore]
  · have hsuf : pyEndsWith (⟨P⟩ ++ "/-1") "/-1" = true := by
      rw [pyEndsWith, decide_eq_true_iff, str_data_append]
      exact ⟨P, rfl⟩
    rw [normalize_buildbot_url,
      if_pos (by rw [Bool.and_eq_true]; exact ⟨hsuf, hd⟩), hbridge, hbef1]
  · simp [parse_buildbot_link, is_buildbot_link, hmatchR, hneR, hbefR]

/-- C8 witness: the round trip at a concrete buildbot URL and build number. -/
theorem c8_latest_roundtrip_witness :
    matchBuilderUrl "http://winbot.zope.org/builders/z3c.authenticator_py_265_32/builds/185" = true ∧
    pyIsDigit "200" = true ∧
    ∃ L R : String,
      parse_buildbot_link
        "http://winbot.zope.org/builders/z3c.authenticator_py_265_32/builds/185" true
        = some (L, "latest") ∧
      normalize_buildbot_url L "200" = some R ∧
      parse_buildbot_link R true = some (L, "latest") :=
  ⟨by decide, by decide,
    c8_latest_roundtrip _ "200" (by decide) (by decide)⟩

/-! ### Pages, environment and the scrapers -/

/-- One `div.result` step element of a buildbot build page, with the data the
scraper reads from it: the element's `class` attribute and the text and `href`
of its first inner anchor. -/
structure RawStep where
  css_class : String
  a_text : String
  a_href : String
  deriving DecidableEq, Repr

/-- A parsed HTML page as consumed by the scrapers: the text nodes returned by
`//title/text()` and the `div.result` elements. -/
structure Page where
  titles : List String
  results : List RawStep
  deriving DecidableEq, Repr

/-- The empty `lxml.html.Element('html')` page that `parse` yields when the
fetch returned no data (e.g. after an HTTP error). -/
def emptyPage : Page := { titles := [], results := [] }

/-- The fetch/parse environment: the summary email's `<pre>` body and first
link (the result of `Failure.parse_email` on `self.url`), parsed build pages
by URL, raw fetched text by URL for jenkins console requests, and the prepared
HTML text of a buildbot step log page (the result of `prepare_step_text` on
the page at the step link). -/
structure Env where
  emailPre : String
  firstLink : Option String
  page : String → Page
  console : String → String
  stepText : String → String

/-- `urllib.parse.urljoin` for the plain relative path references the program
produces: the base URL's final segment is replaced by the reference. -/
def urljoin (base rel : String) : String := rpartBefore base '/' ++ "/" ++ rel

/-- The `for step in etree.cssselect('div.result')` loop of
`Failure.parse_buildbot`; with `normalize_url` set, the failing
`assert step_link_rel.startswith('-1/')` is the `.error ()` branch. -/
def buildStepsOf (env : Env) (url : String) (build_number : String)
    (normalize_url : Bool) : List RawStep → Except Unit (List BuildStep)
  | [] => .ok []
  | step :: rest =>
    match (if normalize_url then
        (if pyStartsWith step.a_href "-1/" then
          Except.ok (build_number ++ "/" ++ partAfterFirst step.a_href '/')
        else Except.error ())
      else Except.ok step.a_href) with
    | .error e => .error e
    | .ok rel =>
      match buildStepsOf env url build_number normalize_url rest with
      | .error e => .error e
      | .ok tail =>
        let step_link := urljoin url rel ++ "/logs/stdio"
        .ok (⟨step.a_text, step_link, step.css_class, env.stepText step_link⟩ :: tail)

/-- `Failure.parse_buildbot`.  Reading `etree.xpath('//title/text()')[0]` on a
page with no title raises IndexError (`.error ()`); when `skip_if` equals the
scraped build number the function returns an empty step list before touching
any step sub-page.  The `max_age` argument only affects caching and is not
modelled. -/
def parse_buildbot (env : Env) (url : String) (skip_if : Option String)
    (normalize_url : Bool) : Except Unit (List BuildStep × String) :=
  match (env.page url).titles with
  | [] => .error ()
  | title :: _ =>
    let build_number := rpartAfter title '#'
    if skip_if = some build_number then
      .ok ([], build_number)
    else
      match (if normalize_url then
          (match normalize_buildbot_url url build_number with
          | some u => Except.ok u
          | none => Except.error ())
        else Except.ok url) with
      | .error e => .error e
      | .ok url' =>
        match buildStepsOf env url' build_number normalize_url (env.page url).results with
        | .error e => .error e
        | .ok steps => .ok (steps, build_number)

/-- `Failure.parse_jenkins_build_number`: the IndexError from a missing title
is caught and `None` is returned; otherwise the number is the text after the
last `'#'` up to the first space. -/
def parse_jenkins_build_number (env : Env) (url : String) : Option String :=
  match (env.page url).titles with
  | [] => none
  | title :: _ => some (partBeforeFirst (rpartAfter title '#') ' ')

/-- `Failure.parse_jenkins`: fetch `url + 'consoleText'` and decode it. -/
def parse_jenkins (env : Env) (url : String) : String :=
  env.console (url ++ "consoleText")

/-! ### Python `int()` and the build-number comparison -/

/-- Continuation of the body of a decimal `int()` literal, positioned right
after a digit: more digits, or single underscores strictly between digits. -/
def intBodyAux : List Char → Bool
  | [] => true
  | c :: rest =>
    if c = '_' then
      match rest with
      | [] => false
      | d :: r => d.isDigit && intBodyAux r
    else c.isDigit && intBodyAux rest

/-- Numeric value of a digit string (underscores skipped). -/
def digitsVal (l : List Char) : Nat :=
  (l.filter (fun c => c != '_')).foldl (fun acc c => acc * 10 + (c.toNat - '0'.toNat)) 0

/-- Body of `int()` after the optional sign: a non-empty digit sequence with
single underscores strictly between digits. -/
def pyIntCore (sign : Int) (body : List Char) : Option Int :=
  match body with
  | [] => none
  | c :: rest =>
    if c.isDigit && intBodyAux rest then some (sign * digitsVal (c :: rest))
    else none

/-- Python `int(s)`: surrounding whitespace stripped, an optional sign, then
digits with optional single underscores between digits; `none` is the raised
`ValueError`. -/
def pyInt (s : String) : Option Int :=
  match pyStripL s.data with
  | '+' :: rest => pyIntCore 1 rest
  | '-' :: rest => pyIntCore (-1) rest
  | l => pyIntCore 1 l

/-- The `if int(self.last_build_number) < int(self.build_number)` step of
`Failure.analyze`: `int()` raises ValueError on a non-numeral (`.error ()`),
and the warning branch only logs, so the result records whether the non-fatal
warning fired. -/
def compareBuildNumbers (last cur : String) : Except Unit Bool :=
  match pyInt last with
  | none => .error ()
  | some a =>
    match pyInt cur with
    | none => .error ()
    | some b => .ok (decide (a < b))

/-! ### The analysis pipeline of `Failure.analyze` -/

/-- The mutable analysis fields of a `Failure` object, all `None` before
`analyze` runs.  `warned_older` records whether the non-fatal "last build
older than current build" warning was logged.  (`title` and `url` are set at
construction and only read by the renderer; `build_source` raises nothing and
no claim mentions it.) -/
structure FState where
  pre : String
  build_link : Option String := none
  build_number : Option String := none
  console_text : Option String := none
  buildbot_steps : Option (List BuildStep) := none
  last_build_link : Option String := none
  last_build_number : Option String := none
  last_console_text : Option String := none
  last_build_steps : Option (List BuildStep) := none
  last_build_successful : Option Bool := none
  warned_older : Bool := false
  tag : Option String := none
  deriving DecidableEq, Repr

/-- Python truthiness of an optional string: `None` and `''` are falsy. -/
def truthyS : Option String → Bool
  | none => false
  | some s => !(s == "")

/-- `Failure.analyze_steps`: a no-op for `None` or an empty list, otherwise
`analyze_text` over each step's text in order. -/
def analyze_steps (table : List (Sig × String)) (tag : Option String) :
    Option (List BuildStep) → Option String
  | none => tag
  | some steps =>
    if steps.isEmpty then tag
    else steps.foldl (fun acc step => analyze_text table acc step.text) tag

/-- `Failure.look_for_known_failures`: short-circuit on a successful latest
build, then scan the (latest else current) console text and the (latest else
current) step texts. -/
def look_for_known_failures (table : List (Sig × String)) (st : FState) : FState :=
  if st.last_build_successful = some true then
    { st with tag := some "last build successful" }
  else
    let tag1 := if truthyS st.last_console_text then
        analyze_text table st.tag (st.last_console_text.getD "")
      else
        analyze_text table st.tag (st.console_text.getD "")
    let tag2 := match st.last_build_steps with
      | some steps =>
        if !steps.isEmpty then analyze_steps table tag1 (some steps)
        else analyze_steps table tag1 st.buildbot_steps
      | none => analyze_steps table tag1 st.buildbot_steps
    { st with tag := tag2 }

/-- The `if self.is_buildbot_link(first_link):` block of `Failure.analyze`. -/
def buildbotBranch (env : Env) (st : FState) : Except Unit FState :=
  match env.firstLink with
  | none => .ok st
  | some l =>
    if is_buildbot_link (some l) then
      match parse_buildbot_link l false, parse_buildbot_link l true with
      | some (build_link, _), some (last_build_link, _) =>
        match parse_buildbot env build_link none false with
        | .error e => .error e
        | .ok (steps, build_number) =>
          match parse_buildbot env last_build_link (some build_number) true with
          | .error e => .error e
          | .ok (last_steps, last_build_number) =>
            match compareBuildNumbers last_build_number build_number with
            | .error e => .error e
            | .ok warned =>
              .ok { st with
                build_link := some build_link,
                build_number := some build_number,
                buildbot_steps := some steps,
                last_build_link := some last_build_link,
                last_build_number := some last_build_number,
                last_build_steps := some last_steps,
                last_build_successful := some (buildbot_success last_steps),
                warned_older := warned }
      | _, _ => .error ()
    else .ok st

/-- The `if self.is_jenkins_link(first_link):` block of `Failure.analyze`;
`if self.last_build_number and self.last_build_number != self.build_number`
is Python truthiness (present and non-empty) plus inequality. -/
def jenkinsBranch (env : Env) (st : FState) : Except Unit FState :=
  match env.firstLink with
  | none => .ok st
  | some l =>
    if is_jenkins_link (some l) then
      match parse_jenkins_link l false, parse_jenkins_link l true with
      | some (build_link, build_number), some (last_build_link, _) =>
        let console_text := parse_jenkins env build_link
        match parse_jenkins_build_number env last_build_link with
        | some s =>
          if s ≠ "" ∧ s ≠ build_number then
            match normalize_jenkins_url last_build_link s with
            | some u =>
              let last_console_text := parse_jenkins env u
              .ok { st with
                build_link := some build_link,
                build_number := some build_number,
                console_text := some console_text,
                last_build_link := some last_build_link,
                last_build_number := some s,
                last_console_text := some last_console_text,
                last_build_successful := some (jenkins_success last_console_text) }
            | none => .error ()
          else
            .ok { st with
              build_link := some build_link,
              build_number := some build_number,
              console_text := some console_text,
              last_build_link := some last_build_link,
              last_build_number := some s }
        | none =>
          .ok { st with
            build_link := some build_link,
            build_number := some build_number,
            console_text := some console_text,
            last_build_link := some last_build_link,
            last_build_number := none }
      | _, _ => .error ()
    else .ok st

/-- `Failure.analyze`: parse the email (already reflected in `Env`), run the
provider branch matching the first link, then tag known failures. -/
def analyze (table : List (Sig × String)) (env : Env) : Except Unit FState :=
  match buildbotBranch env { pre := env.emailPre } with
  | .error e => .error e
  | .ok st1 =>
    match jenkinsBranch env st1 with
    | .error e => .error e
    | .ok st2 => .ok (look_for_known_failures table st2)

/-! ### Field-preservation lemmas for C9 -/

/-- The buildbot branch never touches the jenkins-only fields. -/
theorem buildbotBranch_console {env : Env} {st st' : FState}
    (h : buildbotBranch env st = .ok st') :
    st'.console_text = st.console_text := by
  unfold buildbotBranch at h
  repeat' split at h
  all_goals first
    | (injection h with h2; subst h2; rfl)
    | simp at h

/-- The jenkins branch never touches the buildbot-only fields. -/
theorem jenkinsBranch_steps {env : Env} {st st' : FState}
    (h : jenkinsBranch env st = .ok st') :
    st'.buildbot_steps = st.buildbot_steps := by
  unfold jenkinsBranch at h
  repeat' split at h
  all_goals first
    | (injection h with h2; subst h2; rfl)
    | simp at h

/-- A non-buildbot link leaves the buildbot branch inert. -/
theorem buildbotBranch_not_link {env : Env} {st : FState}
    (h : is_buildbot_link env.firstLink = false) :
    buildbotBranch env st = .ok st := by
  cases henv : env.firstLink with
  | none => simp [buildbotBranch, henv]
  | some l =>
    rw [henv] at h
    simp [buildbotBranch, henv, h]

/-- A non-jenkins link leaves the jenkins branch inert. -/
theorem jenkinsBranch_not_link {env : Env} {st : FState}
    (h : is_jenkins_link env.firstLink = false) :
    jenkinsBranch env st = .ok st := by
  cases henv : env.firstLink with
  | none => simp [jenkinsBranch, henv]
  | some l =>
    rw [henv] at h
    simp [jenkinsBranch, henv, h]

/-- When the buildbot branch fires it always populates the step list. -/
theorem buildbotBranch_link_steps {env : Env} {st st' : FState}
    (hl : is_buildbot_link env.firstLink = true)
    (h : buildbotBranch env st = .ok st') :
    st'.buildbot_steps ≠ none := by
  unfold buildbotBranch at h
  cases henv : env.firstLink with
  | none => rw [henv] at hl; simp [is_buildbot_link] at hl
  | some l =>
    rw [henv] at hl
    simp only [henv] at h
    rw [if_pos hl] at h
    repeat' split at h
    all_goals first
      | (injection h with h2; subst h2; simp)
      | simp at h

/-- When the jenkins branch fires it always populates the console text. -/
theorem jenkinsBranch_link_console {env : Env} {st st' : FState}
    (hl : is_jenkins_link env.firstLink = true)
    (h : jenkinsBranch env st = .ok st') :
    st'.console_text ≠ none := by
  unfold jenkinsBranch at h
  cases henv : env.firstLink with
  | none => rw [henv] at hl; simp [is_jenkins_link] at hl
  | some l =>
    rw [henv] at hl
    simp only [henv] at h
    rw [if_pos hl] at h
    repeat' split at h
    all_goals first
      | (injection h with h2; subst h2; simp)
      | simp at h

/-- Tagging only assigns `tag`. -/
theorem look_preserves (table : List (Sig × String)) (st : FState) :
    (look_for_known_failures table st).buildbot_steps = st.buildbot_steps ∧
    (look_for_known_failures table st).console_text = st.console_text ∧
    (look_for_known_failures table st).warned_older = st.warned_older ∧
    (look_for_known_failures table st).build_number = st.build_number ∧
    (look_for_known_failures table st).last_build_number = st.last_build_number ∧
    (look_for_known_failures table st).last_build_steps = st.last_build_steps ∧
    (look_for_known_failures table st).last_build_successful
      = st.last_build_successful := by
  unfold look_for_known_failures
  split <;> exact ⟨rfl, rfl, rfl, rfl, rfl, rfl, rfl⟩

/-- The two provider URL shapes are disjoint. -/
theorem match_disjoint (s : String) (h : matchBuilderUrl s = true) :
    matchJenkinsUrl s = false := by
  obtain ⟨n, job, rest, hrev, hn, hjob, hrest, hnl⟩ := matchBuilderUrl_elim h
  have hne : n ≠ [] := by
    intro he
    rw [he] at hn
    exact absurd hn (by decide)
  unfold matchJenkinsUrl
  rw [hrev]
  rcases n with _ | ⟨c, t⟩
  · exact absurd rfl hne
  · rfl

/-- Disjointness at the `Option` level used by `analyze`. -/
theorem is_link_disjoint (u : Option String) (h : is_buildbot_link u = true) :
    is_jenkins_link u = false := by
  cases u with
  | none => simp [is_buildbot_link] at h
  | some s =>
    rw [is_buildbot_link, Bool.and_eq_true] at h
    rw [is_jenkins_link, match_disjoint s h.2, Bool.and_false]

/-- C9: after a completed analysis, steps are populated only when the first
link matched the buildbot shape, console text only when it matched the
jenkins shape, never both (the shapes are disjoint), and both stay empty when
the link is absent or matches neither shape. -/
theorem c9_provider_exclusivity (table : List (Sig × String)) (env : Env)
    (st : FState) (h : analyze table env = .ok st) :
    (st.buildbot_steps ≠ none → is_buildbot_link env.firstLink = true) ∧
    (st.console_text ≠ none → is_jenkins_link env.firstLink = true) ∧
    ¬(st.buildbot_steps ≠ none ∧ st.console_text ≠ none) ∧
    (is_buildbot_link env.firstLink = false →
      is_jenkins_link env.firstLink = false →
      st.buildbot_steps = none ∧ st.console_text = none) := by
  unfold analyze at h
  split at h
  · simp at h
  · next st1 h1 =>
    split at h
    · simp at h
    · next st2 h2 =>
      injection h with h3
      subst h3
      obtain ⟨hlookS, hlookC, -⟩ := look_preserves table st2
      have hsteps : is_buildbot_link env.firstLink = false →
          st2.buildbot_steps = none := by
        intro hb
        rw [jenkinsBranch_steps h2]
        rw [buildbotBranch_not_link hb] at h1
        injection h1 with h4
        subst h4
        rfl
      have hcons : is_jenkins_link env.firstLink = false →
          st2.console_text = none := by
        intro hj
        rw [jenkinsBranch_not_link hj] at h2
        injection h2 with h4
        subst h4
        rw [buildbotBranch_console h1]
      refine ⟨?_, ?_, ?_, ?_⟩
      · intro hne
        by_contra hb
        rw [Bool.not_eq_true] at hb
        rw [hlookS, hsteps hb] at hne
        exact hne rfl
      · intro hne
        by_contra hj
        rw [Bool.not_eq_true] at hj
        rw [hlookC, hcons hj] at hne
        exact hne rfl
      · rintro ⟨hs, hc⟩
        by_cases hb : is_buildbot_link env.firstLink = true
        · have hj := is_link_disjoint _ hb
          rw [hlookC, hcons hj] at hc
          exact hc rfl
        · rw [Bool.not_eq_true] at hb
          rw [hlookS, hsteps hb] at hs
          exact hs rfl
      · intro hb hj
        rw [hlookS, hlookC, hsteps hb, hcons hj]
        exact ⟨rfl, rfl⟩

/-- Concrete environment for the C9 witness: no link in the summary email. -/
def c9Env : Env :=
  { emailPre := "", firstLink := none, page := fun _ => emptyPage,
    console := fun _ => "", stepText := fun _ => "" }

/-- C9 witness: the exclusivity theorem applied to a completed analysis of a
record whose email contains no link. -/
theorem c9_provider_exclusivity_witness :
    analyze [] c9Env = .ok { pre := "" } ∧
      ((({ pre := "" } : FState).buildbot_steps ≠ none →
          is_buildbot_link c9Env.firstLink = true) ∧
        (({ pre := "" } : FState).console_text ≠ none →
          is_jenkins_link c9Env.firstLink = true) ∧
        ¬(({ pre := "" } : FState).buildbot_steps ≠ none ∧
          ({ pre := "" } : FState).console_text ≠ none) ∧
        (is_buildbot_link c9Env.firstLink = false →
          is_jenkins_link c9Env.firstLink = false →
          ({ pre := "" } : FState).buildbot_steps = none ∧
          ({ pre := "" } : FState).console_text = none)) :=
  ⟨rfl, c9_provider_exclusivity [] c9Env { pre := "" } rfl⟩

/-! ### Running the buildbot branch under explicit page hypotheses -/

/-- A URL matching the buildbot shape is non-empty. -/
theorem matchBuilder_ne_empty {l : String} (h : matchBuilderUrl l = true) :
    l ≠ "" := by
  intro he
  rw [he] at h
  exact absurd h (by decide)

/-- `dropWhile` is inert when the predicate fails on every element. -/
theorem dropWhile_eq_self {α : Type} {p : α → Bool} {l : List α}
    (h : ∀ c ∈ l, p c = false) : l.dropWhile p = l := by
  cases l with
  | nil => rfl
  | cons c t =>
    rw [List.dropWhile_cons, h c (List.mem_cons_self c t)]
    simp

/-- A digit character is not Python whitespace. -/
theorem isPySpace_eq_false_of_digit {c : Char} (h : c.isDigit = true) :
    isPySpace c = false := by
  by_contra hs
  rw [Bool.not_eq_false, isPySpace] at hs
  simp only [Bool.or_eq_true, decide_eq_true_eq] at hs
  rcases hs with ((((hc | hc) | hc) | hc) | hc) | hc <;>
    · rw [hc] at h
      exact absurd h (by decide)

/-- `strip` is inert on an all-digit string. -/
theorem pyStripL_digits {l : List Char} (h : ∀ c ∈ l, c.isDigit = true) :
    pyStripL l = l := by
  unfold pyStripL
  rw [dropWhile_eq_self (fun c hc => isPySpace_eq_false_of_digit (h c hc)),
    dropWhile_eq_self (fun c hc =>
      isPySpace_eq_false_of_digit (h c (List.mem_reverse.mp hc))),
    List.reverse_reverse]

/-- `intBodyAux` accepts any all-digit continuation. -/
theorem intBodyAux_digits {l : List Char} (h : ∀ c ∈ l, c.isDigit = true) :
    intBodyAux l = true := by
  induction l with
  | nil => rfl
  | cons c rest ih =>
    have hc := h c (List.mem_cons_self c rest)
    unfold intBodyAux
    rw [if_neg (by intro he; rw [he] at hc; exact absurd hc (by decide))]
    rw [hc, ih (fun d hd => h d (List.mem_cons_of_mem c hd))]
    rfl

/-- `int()` accepts a `str.isdigit()` string and returns its decimal value. -/
theorem pyInt_digits {s : String} (h : pyIsDigit s = true) :
    pyInt s = some ((digitsVal s.data : Nat) : Int) := by
  rw [pyIsDigit, Bool.and_eq_true] at h
  obtain ⟨hne, hall⟩ := h
  have hall' : ∀ c ∈ s.data, c.isDigit = true := List.all_eq_true.mp hall
  have hstrip : pyStripL s.data = s.data := pyStripL_digits hall'
  rcases hsd : s.data with _ | ⟨c, rest⟩
  · rw [hsd] at hne
    simp at hne
  · have hc : c.isDigit = true := hall' c (hsd ▸ List.mem_cons_self c rest)
    unfold pyInt
    rw [hstrip, hsd]
    split
    · next r heq =>
      rw [List.cons.injEq] at heq
      rw [heq.1] at hc
      exact absurd hc (by decide)
    · next r heq =>
      rw [List.cons.injEq] at heq
      rw [heq.1] at hc
      exact absurd hc (by decide)
    · next =>
      rw [pyIntCore,
        if_pos (by
          rw [Bool.and_eq_true]
          exact ⟨hc, intBodyAux_digits
            (fun d hd => hall' d (hsd ▸ List.mem_cons_of_mem c hd))⟩)]
      rw [one_mul, ← hsd]

/-- The build-number comparison on two `isdigit` numerals: never raises, and
the warning flag is exactly "latest numerically smaller than current". -/
theorem compare_digits {a b : String} (ha : pyIsDigit a = true)
    (hb : pyIsDigit b = true) :
    compareBuildNumbers a b
      = .ok (decide ((digitsVal a.data : Int) < (digitsVal b.data : Int))) := by
  rw [compareBuildNumbers]
  simp [pyInt_digits ha, pyInt_digits hb]

/-- The step loop without URL normalization: always succeeds, one `BuildStep`
per raw step. -/
theorem buildStepsOf_no_normalize (env : Env) (url bn : String) :
    ∀ rs : List RawStep, buildStepsOf env url bn false rs
      = .ok (rs.map (fun step =>
          { title := step.a_text,
            link := urljoin url step.a_href ++ "/logs/stdio",
            css_class := step.css_class,
            text := env.stepText (urljoin url step.a_href ++ "/logs/stdio") })) := by
  intro rs
  induction rs with
  | nil => rfl
  | cons s t ih => simp [buildStepsOf, ih]

/-- The step loop with URL normalization succeeds when every raw link carries
the `-1/` head, rewriting it to the resolved build number. -/
theorem buildStepsOf_normalize (env : Env) (url bn : String) :
    ∀ rs : List RawStep, (∀ r ∈ rs, pyStartsWith r.a_href "-1/" = true) →
      buildStepsOf env url bn true rs
        = .ok (rs.map (fun step =>
            { title := step.a_text,
              link := urljoin url (bn ++ "/" ++ partAfterFirst step.a_href '/')
                ++ "/logs/stdio",
              css_class := step.css_class,
              text := env.stepText (urljoin url
                (bn ++ "/" ++ partAfterFirst step.a_href '/') ++ "/logs/stdio") })) := by
  intro rs
  induction rs with
  | nil => intro h; rfl
  | cons s t ih =>
    intro h
    simp [buildStepsOf, h s (List.mem_cons_self s t),
      ih (fun r hr => h r (List.mem_cons_of_mem s hr))]

/-- `parse_buildbot` on a titled page without skip or normalization. -/
theorem parse_buildbot_current (env : Env) (url t : String) (ts : List String)
    (h : (env.page url).titles = t :: ts) :
    parse_buildbot env url none false
      = .ok ((env.page url).results.map (fun step =>
          { title := step.a_text,
            link := urljoin url step.a_href ++ "/logs/stdio",
            css_class := step.css_class,
            text := env.stepText (urljoin url step.a_href ++ "/logs/stdio") }),
        rpartAfter t '#') := by
  unfold parse_buildbot
  rw [h]
  simp [buildStepsOf_no_normalize]

/-- `parse_buildbot` short-circuits on a matching `skip_if` before consulting
any step sub-page. -/
theorem parse_buildbot_skip (env : Env) (url t : String) (ts : List String)
    (h : (env.page url).titles = t :: ts) :
    parse_buildbot env url (some (rpartAfter t '#')) true
      = .ok ([], rpartAfter t '#') := by
  unfold parse_buildbot
  rw [h]
  simp

/-- `parse_buildbot` on a `-1` latest URL whose scraped number differs from
the skip number: the URL is normalized and the steps scraped. -/
theorem parse_buildbot_latest (env : Env) (url t bnskip : String) (ts : List String)
    (h : (env.page url).titles = t :: ts)
    (hne : rpartAfter t '#' ≠ bnskip)
    (hsuf : pyEndsWith url "/-1" = true)
    (hd : pyIsDigit (rpartAfter t '#') = true)
    (hrefs : ∀ r ∈ (env.page url).results, pyStartsWith r.a_href "-1/" = true) :
    parse_buildbot env url (some bnskip) true
      = .ok ((env.page url).results.map (fun step =>
          { title := step.a_text,
            link := urljoin (rpartBefore url '/' ++ "/" ++ rpartAfter t '#')
              (rpartAfter t '#' ++ "/" ++ partAfterFirst step.a_href '/')
              ++ "/logs/stdio",
            css_class := step.css_class,
            text := env.stepText (urljoin
              (rpartBefore url '/' ++ "/" ++ rpartAfter t '#')
              (rpartAfter t '#' ++ "/" ++ partAfterFirst step.a_href '/')
              ++ "/logs/stdio") }),
        rpartAfter t '#') := by
  have hnorm : normalize_buildbot_url url (rpartAfter t '#')
      = some (rpartBefore url '/' ++ "/" ++ rpartAfter t '#') := by
    rw [normalize_buildbot_url, if_pos]
    rw [Bool.and_eq_true]
    exact ⟨hsuf, hd⟩
  have hcond : ¬(some bnskip = some (rpartAfter t '#')) := by
    intro hx
    exact hne (Option.some.inj hx).symm
  unfold parse_buildbot
  rw [h]
  simp [hcond, hnorm, buildStepsOf_normalize env _ _ _ hrefs]

/-- The buildbot branch of `analyze`, assembled from the two scrapes and the
numeric comparison. -/
theorem buildbotBranch_run (env : Env) (st : FState) (l : String)
    {steps lsteps : List BuildStep} {bn lbn : String} {w : Bool}
    (hl : env.firstLink = some l) (hA : matchBuilderUrl l = true)
    (hcur : parse_buildbot env l none false = .ok (steps, bn))
    (hlat : parse_buildbot env (rpartBefore l '/' ++ "/-1") (some bn) true
      = .ok (lsteps, lbn))
    (hcmp : compareBuildNumbers lbn bn = .ok w) :
    buildbotBranch env st = .ok { st with
      build_link := some l,
      build_number := some bn,
      buildbot_steps := some steps,
      last_build_link := some (rpartBefore l '/' ++ "/-1"),
      last_build_number := some lbn,
      last_build_steps := some lsteps,
      last_build_successful := some (buildbot_success lsteps),
      warned_older := w } := by
  have hne : l ≠ "" := matchBuilder_ne_empty hA
  have hbl : is_buildbot_link (some l) = true := by simp [is_buildbot_link, hne, hA]
  have hpl1 : parse_buildbot_link l false = some (l, rpartAfter l '/') := by
    simp [parse_buildbot_link, hbl]
  have hpl2 : parse_buildbot_link l true
      = some (rpartBefore l '/' ++ "/-1", "latest") := by
    simp [parse_buildbot_link, hbl]
  unfold buildbotBranch
  simp only [hl]
  rw [if_pos hbl]
  simp only [hpl1, hpl2, hcur, hlat, hcmp]

/-- `analyze` when the first link matches the buildbot shape: the buildbot
branch runs, the jenkins branch is inert (the shapes are disjoint), and the
tagger finishes. -/
theorem analyze_buildbot_run (table : List (Sig × String)) (env : Env) (l : String)
    {steps lsteps : List BuildStep} {bn lbn : String} {w : Bool}
    (hl : env.firstLink = some l) (hA : matchBuilderUrl l = true)
    (hcur : parse_buildbot env l none false = .ok (steps, bn))
    (hlat : parse_buildbot env (rpartBefore l '/' ++ "/-1") (some bn) true
      = .ok (lsteps, lbn))
    (hcmp : compareBuildNumbers lbn bn = .ok w) :
    analyze table env = .ok (look_for_known_failures table
      { pre := env.emailPre,
        build_link := some l,
        build_number := some bn,
        buildbot_steps := some steps,
        last_build_link := some (rpartBefore l '/' ++ "/-1"),
        last_build_number := some lbn,
        last_build_steps := some lsteps,
        last_build_successful := some (buildbot_success lsteps),
        warned_older := w }) := by
  have hne : l ≠ "" := matchBuilder_ne_empty hA
  have hbl : is_buildbot_link (some l) = true := by simp [is_buildbot_link, hne, hA]
  have hj : is_jenkins_link env.firstLink = false := by
    rw [hl]
    exact is_link_disjoint _ hbl
  unfold analyze
  rw [buildbotBranch_run env _ l hl hA hcur hlat hcmp]
  simp only [jenkinsBranch_not_link hj]

/-- Appending a suffix makes `endswith` hold. -/
theorem pyEndsWith_append (a s : String) : pyEndsWith (a ++ s) s = true := by
  rw [pyEndsWith, decide_eq_true_iff, str_data_append]
  exact ⟨a.data, rfl⟩

/-! ### C2: a page with no title element -/

/-- Environment in which every fetch fails: every page is the empty
`<html>` element. -/
def c2Env : Env :=
  { emailPre := "", firstLink := none, page := fun _ => emptyPage,
    console := fun _ => "", stepText := fun _ => "" }

/-- C2 counterexample: on the empty page produced by a failed fetch (no title
element) the Provider-A scraper raises — IndexError from `[0]` on the empty
`//title/text()` list — instead of returning normally with an absent build
number, refuting the claim for Provider-A. -/
theorem c2_counterexample :
    (c2Env.page "http://x/builders/j/builds/1").titles = [] ∧
      parse_buildbot c2Env "http://x/builders/j/builds/1" none false = .error () :=
  ⟨rfl, rfl⟩

/-- C2 (amended): on any fetched page with no title element — including the
empty page of a failed fetch — the Provider-B build-number scraper returns
normally with an absent build number, while the Provider-A scraper raises. -/
theorem c2_titleless_behavior (env : Env) (u1 u2 : String)
    (skip_if : Option String) (normalize_url : Bool)
    (h1 : (env.page u1).titles = []) (h2 : (env.page u2).titles = []) :
    parse_buildbot env u1 skip_if normalize_url = .error () ∧
      parse_jenkins_build_number env u2 = none := by
  constructor
  · unfold parse_buildbot
    rw [h1]
  · unfold parse_jenkins_build_number
    rw [h2]

/-- C2 witness: the amended behavior at the all-fetches-fail environment. -/
theorem c2_titleless_behavior_witness :
    ((c2Env.page "a").titles = [] ∧ (c2Env.page "b").titles = []) ∧
      (parse_buildbot c2Env "a" none false = .error () ∧
        parse_jenkins_build_number c2Env "b" = none) :=
  ⟨⟨rfl, rfl⟩, c2_titleless_behavior c2Env "a" "b" none false rfl rfl⟩

/-! ### C3: the latest-vs-current comparison -/

/-- Environment whose buildbot pages carry a title without a `'#'` fragment,
so the scraped build number is the non-numeric full title. -/
def c3Env : Env :=
  { emailPre := "", firstLink := some "http://x/builders/j/builds/5",
    page := fun _ => { titles := ["nope"], results := [] },
    console := fun _ => "", stepText := fun _ => "" }

/-- C3 counterexample: the scraper can return the non-numeric build-number
string "nope" (a title without `'#'`); the comparison step
`int(last) < int(cur)` then raises ValueError and the analysis aborts, so the
comparison is not raise-free over scraper-returned strings. -/
theorem c3_counterexample :
    parse_buildbot c3Env "http://x/builders/j/builds/5" none false
        = .ok ([], "nope") ∧
      compareBuildNumbers "nope" "nope" = .error () ∧
      analyze [] c3Env = .error () :=
  ⟨rfl, rfl, rfl⟩

/-- C3 (amended): when both scraped build numbers are decimal numerals the
comparison never raises: analysis runs to completion with the fetched numbers
unchanged, and the non-fatal warning fires exactly when the latest number is
numerically smaller than the current one. -/
theorem c3_numeric_compare (table : List (Sig × String)) (env : Env)
    (l t tl : String) (ts tls : List String)
    (hl : env.firstLink = some l) (hA : matchBuilderUrl l = true)
    (hcur : (env.page l).titles = t :: ts)
    (hlat : (env.page (rpartBefore l '/' ++ "/-1")).titles = tl :: tls)
    (hd : pyIsDigit (rpartAfter t '#') = true)
    (hdl : pyIsDigit (rpartAfter tl '#') = true)
    (hrefs : ∀ r ∈ (env.page (rpartBefore l '/' ++ "/-1")).results,
      pyStartsWith r.a_href "-1/" = true) :
    ∃ st, analyze table env = .ok st ∧
      st.warned_older = decide ((digitsVal (rpartAfter tl '#').data : Int)
        < (digitsVal (rpartAfter t '#').data : Int)) ∧
      st.build_number = some (rpartAfter t '#') ∧
      st.last_build_number = some (rpartAfter tl '#') := by
  have hcur' := parse_buildbot_current env l t ts hcur
  have hcmp := compare_digits hdl hd
  have hlat' : ∃ lsteps, parse_buildbot env (rpartBefore l '/' ++ "/-1")
      (some (rpartAfter t '#')) true = .ok (lsteps, rpartAfter tl '#') := by
    by_cases he : rpartAfter tl '#' = rpartAfter t '#'
    · refine ⟨[], ?_⟩
      have hskip := parse_buildbot_skip env (rpartBefore l '/' ++ "/-1") tl tls hlat
      rw [he] at hskip
      rw [← he] at hskip ⊢
      exact hskip
    · exact ⟨_, parse_buildbot_latest env (rpartBefore l '/' ++ "/-1") tl
        (rpartAfter t '#') tls hlat he (pyEndsWith_append _ _) hdl hrefs⟩
  obtain ⟨lsteps, hlat2⟩ := hlat'
  have hrun := analyze_buildbot_run table env l hl hA hcur' hlat2 hcmp
  refine ⟨_, hrun, ?_, ?_, ?_⟩
  · exact (look_preserves table _).2.2.1
  · exact (look_preserves table _).2.2.2.1
  · exact (look_preserves table _).2.2.2.2.1

/-- Environment for the C3 witness: current build titled `#5`, latest build
titled `#3` — the degenerate "latest older than current" situation. -/
def c3EnvW : Env :=
  { emailPre := "", firstLink := some "http://x/builders/j/builds/5",
    page := fun u => if u = "http://x/builders/j/builds/-1"
      then { titles := ["b #3"], results := [] }
      else { titles := ["b #5"], results := [] },
    console := fun _ => "", stepText := fun _ => "" }

/-- C3 witness: with numerals 3 (latest) and 5 (current) the analysis
completes and the warning fires. -/
theorem c3_numeric_compare_witness :
    pyIsDigit (rpartAfter "b #5" '#') = true ∧
    pyIsDigit (rpartAfter "b #3" '#') = true ∧
    (∃ st, analyze [] c3EnvW = .ok st ∧
      st.warned_older = decide ((digitsVal (rpartAfter "b #3" '#').data : Int)
        < (digitsVal (rpartAfter "b #5" '#').data : Int)) ∧
      st.build_number = some (rpartAfter "b #5" '#') ∧
      st.last_build_number = some (rpartAfter "b #3" '#')) :=
  ⟨by decide, by decide,
    c3_numeric_compare [] c3EnvW "http://x/builders/j/builds/5" "b #5" "b #3" [] []
      rfl (by decide) (by decide) (by decide) (by decide) (by decide)
      (fun r hr => absurd hr (List.not_mem_nil r))⟩

/-! ### C1: the latest-equals-current short circuit -/

/-- Environment in which the latest build page resolves to the same build
number as the current build, and the current build's single step succeeded. -/
def c1Env : Env :=
  { emailPre := "", firstLink := some "http://x/builders/j/builds/5",
    page := fun u => if u = "http://x/builders/j/builds/-1"
      then { titles := ["b #5"], results := [] }
      else { titles := ["b #5"],
             results := [{ css_class := "success result", a_text := "step",
                           a_href := "0" }] },
    console := fun _ => "", stepText := fun _ => "" }

/-- C1 counterexample: latest resolves to the current build number, the
current build's steps are all successful (success value `true`), yet the code
computes the latest-build-success from the empty short-circuit step list and
stores falsy — not the success computed from the already-fetched current
steps, refuting the claim. -/
theorem c1_counterexample :
    (analyze [] c1Env).map (fun st =>
      (st.last_build_successful, st.buildbot_steps.map buildbot_success))
      = .ok (some false, some true) :=
  rfl

/-- C1 (amended): when the latest page resolves to the same build number the
second scrape is short-circuited — the latest step list comes back empty, so
no step sub-page is consulted — and the latest-build-success value is
computed from that empty short-circuit result, hence always unsuccessful
(falsy), regardless of the current build's steps. -/
theorem c1_shortcircuit (table : List (Sig × String)) (env : Env)
    (l t tl : String) (ts tls : List String)
    (hl : env.firstLink = some l) (hA : matchBuilderUrl l = true)
    (hcur : (env.page l).titles = t :: ts)
    (hlat : (env.page (rpartBefore l '/' ++ "/-1")).titles = tl :: tls)
    (heq : rpartAfter tl '#' = rpartAfter t '#')
    (hd : pyIsDigit (rpartAfter t '#') = true) :
    ∃ st, analyze table env = .ok st ∧
      st.last_build_steps = some [] ∧
      st.last_build_successful = some false := by
  have hcur' := parse_buildbot_current env l t ts hcur
  have hskip := parse_buildbot_skip env (rpartBefore l '/' ++ "/-1") tl tls hlat
  rw [heq] at hskip
  have hcmp := compare_digits hd hd
  have hrun := analyze_buildbot_run table env l hl hA hcur' hskip hcmp
  refine ⟨_, hrun, ?_, ?_⟩
  · exact (look_preserves table _).2.2.2.2.2.1
  · exact (look_preserves table _).2.2.2.2.2.2

/-- C1 witness: the amended behavior at the short-circuit environment. -/
theorem c1_shortcircuit_witness :
    pyIsDigit (rpartAfter "b #5" '#') = true ∧
    (∃ st, analyze [] c1Env = .ok st ∧ st.last_build_steps = some [] ∧
      st.last_build_successful = some false) :=
  ⟨by decide,
    c1_shortcircuit [] c1Env "http://x/builders/j/builds/5" "b #5" "b #5" [] []
      rfl (by decide) (by decide) (by decide) rfl (by decide)⟩

/-! ### C7: `Report.truncate_pre` -/

/-- Python `str.splitlines(True)` for newline-terminated text: split after each
`'\n'`, keeping the newline with its line. -/
def splitLinesK : List Char → List (List Char)
  | [] => []
  | c :: cs =>
    if c = '\n' then ['\n'] :: splitLinesK cs
    else
      match splitLinesK cs with
      | [] => [[c]]
      | h :: t => (c :: h) :: t

/-- `pre.strip().splitlines(True)` as a list of line strings. -/
def splitlinesKeep (s : String) : List String := (splitLinesK s.data).map String.mk

/-- The section-marker head that `Report` emits before each echoed command. -/
def sectionMarker : String := "<span class=\"section\">"

/-- The error-span head counted by `Report.collapsed_text`. -/
def errorMarker : String := "<span class=\"error\">"

/-- The `for line in lines` loop of `Report.split_to_sections`: flush the
pending block at each section marker, then append the line to the pending
block; flush the final block. -/
def split_to_sections_aux (pending : List String) (result : List (List String)) :
    List String → List (List String)
  | [] => if pending.isEmpty then result else result ++ [pending]
  | line :: rest =>
    if pyStartsWith line sectionMarker then
      if pending.isEmpty then split_to_sections_aux [line] result rest
      else split_to_sections_aux [line] (result ++ [pending]) rest
    else split_to_sections_aux (pending ++ [line]) result rest

/-- `Report.split_to_sections`. -/
def split_to_sections (lines : List String) : List (List String) :=
  split_to_sections_aux [] [] lines

/-- `Report.collapsed_text`: a collapsed-span label counting the hidden lines
(and error lines), followed by the hidden content inside an `<article>`. -/
def collapsed_text (lines : List String) : String :=
  let n_errors := (lines.filter (fun line => strContains line errorMarker)).length
  let title := toString lines.length ++ " more lines"
  let title := if n_errors = 1 then title ++ " and 1 error"
    else if n_errors ≠ 0 then title ++ " and " ++ toString n_errors ++ " errors"
    else title
  "<span class=\"collapsible collapsed\">(" ++ title ++ ")</span>" ++ "<article>"
    ++ String.join lines ++ "</article>"

/-- The two pieces a section contributes to the truncated output: a marker
head stays visible with its body collapsed, any other section collapses
whole.  (`section[0]` on an empty section would raise, but
`split_to_sections` never yields an empty section.) -/
def sectionPieces (sec : List String) : List String :=
  match sec with
  | [] => []
  | h :: t =>
    if pyStartsWith h sectionMarker then [h, collapsed_text t]
    else [collapsed_text (h :: t)]

/-- `Report.truncate_pre`, with Python's slice semantics (`lines[first:-last]`
and `lines[-last:]`, including the `last = 0` degenerate case where `-0`
means `0`). -/
def truncate_pre (pre : String) (first last min_middle : Nat) : String :=
  let lines := splitlinesKeep (pyStrip pre)
  if lines.length < first + min_middle + last then pre
  else
    let first_bit := lines.take first
    let middle_bit := if last = 0 then []
      else (lines.drop first).take (lines.length - first - last)
    let last_bit := if last = 0 then lines
      else lines.drop (lines.length - last)
    String.join (first_bit ++ ((split_to_sections middle_bit).map sectionPieces).flatten
      ++ last_bit)

/-- Splitting with kept newlines loses nothing. -/
theorem splitLinesK_flatten (l : List Char) : (splitLinesK l).flatten = l := by
  induction l with
  | nil => rfl
  | cons c cs ih =>
    rw [splitLinesK]
    by_cases h : c = '\n'
    · rw [if_pos h, List.flatten_cons, ih, h]
      rfl
    · rw [if_neg h]
      rcases hs : splitLinesK cs with _ | ⟨x, t⟩
      · rw [hs] at ih
        simp at ih
        rw [List.flatten, List.flatten, List.append_nil, ← ih]
      · rw [hs] at ih
        rw [List.flatten_cons] at ih ⊢
        rw [List.cons_append, ih]

/-- The section splitter partitions its input. -/
theorem split_to_sections_aux_flatten (rest : List String) :
    ∀ (pending : List String) (result : List (List String)),
      (split_to_sections_aux pending result rest).flatten
        = result.flatten ++ pending ++ rest := by
  induction rest with
  | nil =>
    intro pending result
    unfold split_to_sections_aux
    by_cases h : pending.isEmpty
    · rw [if_pos h, List.isEmpty_iff.mp h]
      simp
    · rw [if_neg h]
      simp
  | cons line t ih =>
    intro pending result
    unfold split_to_sections_aux
    by_cases hm : pyStartsWith line sectionMarker
    · rw [if_pos hm]
      by_cases hp : pending.isEmpty
      · rw [if_pos hp, ih, List.isEmpty_iff.mp hp]
        simp
      · rw [if_neg hp, ih]
        simp
    · rw [if_neg hm, ih]
      simp

/-- `Report.split_to_sections` partitions its input. -/
theorem split_to_sections_flatten (lines : List String) :
    (split_to_sections lines).flatten = lines := by
  rw [split_to_sections, split_to_sections_aux_flatten]
  rfl

/-- The section splitter yields no empty section. -/
theorem split_to_sections_aux_ne_nil (rest : List String) :
    ∀ (pending : List String) (result : List (List String)),
      (∀ x ∈ result, x ≠ []) →
      ∀ x ∈ split_to_sections_aux pending result rest, x ≠ [] := by
  induction rest with
  | nil =>
    intro pending result hres x hx
    unfold split_to_sections_aux at hx
    by_cases h : pending.isEmpty
    · rw [if_pos h] at hx
      exact hres x hx
    · rw [if_neg h] at hx
      rw [List.mem_append] at hx
      rcases hx with hx | hx
      · exact hres x hx
      · rw [List.mem_singleton] at hx
        subst hx
        exact fun he => h (by rw [he]; rfl)
  | cons line t ih =>
    intro pending result hres x hx
    unfold split_to_sections_aux at hx
    by_cases hm : pyStartsWith line sectionMarker
    · rw [if_pos hm] at hx
      by_cases hp : pending.isEmpty
      · rw [if_pos hp] at hx
        exact ih _ _ hres x hx
      · rw [if_neg hp] at hx
        refine ih _ _ ?_ x hx
        intro y hy
        rw [List.mem_append] at hy
        rcases hy with hy | hy
        · exact hres y hy
        · rw [List.mem_singleton] at hy
          subst hy
          exact fun he => hp (by rw [he]; rfl)
    · rw [if_neg hm] at hx
      exact ih _ _ hres x hx

/-- `String.join` concatenates the character data. -/
theorem foldl_append_data (ls : List String) : ∀ acc : String,
    (ls.foldl (fun r s => r ++ s) acc).data
      = acc.data ++ (ls.map String.data).flatten := by
  induction ls with
  | nil => intro acc; simp
  | cons s t ih =>
    intro acc
    rw [List.foldl_cons, ih, str_data_append]
    simp

/-- `String.join` at the data level. -/
theorem sjoin_data (ls : List String) :
    (String.join ls).data = (ls.map String.data).flatten := by
  have h := foldl_append_data ls ""
  simpa [String.join] using h

/-- A member string's data is an infix of the join's data. -/
theorem infix_sjoin_of_mem {p : String} {ps : List String} (h : p ∈ ps) :
    p.data <:+: (String.join ps).data := by
  rw [sjoin_data]
  exact List.infix_of_mem_flatten (List.mem_map_of_mem String.data h)

/-- An infix of `b` is an infix of `a ++ b ++ c` (strings). -/
theorem infix_mid {x : List Char} (a b c : String) (h : x <:+: b.data) :
    x <:+: (a ++ b ++ c).data := by
  refine h.trans ?_
  refine ⟨a.data, c.data, ?_⟩
  rw [str_data_append, str_data_append]

/-- Every line of a section occurs (as an infix) in one of the pieces the
section contributes to the output. -/
theorem sectionPieces_covers {sec : List String} (hne : sec ≠ []) :
    ∀ ln ∈ sec, ∃ p ∈ sectionPieces sec, ln.data <:+: p.data := by
  intro ln hln
  rcases sec with _ | ⟨h, t⟩
  · exact absurd rfl hne
  · rw [sectionPieces]
    by_cases hm : pyStartsWith h sectionMarker
    · rw [if_pos hm]
      rw [List.mem_cons] at hln
      rcases hln with hln | hln
      · exact ⟨h, List.mem_cons_self _ _, hln ▸ List.infix_refl _⟩
      · refine ⟨collapsed_text t, by simp, ?_⟩
        rw [collapsed_text]
        exact infix_mid _ _ _ (infix_sjoin_of_mem hln)
    · rw [if_neg hm]
      refine ⟨collapsed_text (h :: t), by simp, ?_⟩
      rw [collapsed_text]
      exact infix_mid _ _ _ (infix_sjoin_of_mem hln)

/-- Decomposing a list into Python's `[:first]`, `[first:-last]` and
`[-last:]` slices (the non-degenerate case). -/
theorem take_middle_drop {α : Type} (L : List α) (f l : Nat) (hl : f + l ≤ L.length) :
    L.take f ++ (L.drop f).take (L.length - f - l) ++ L.drop (L.length - l) = L := by
  have h3 : (L.drop f).drop (L.length - f - l) = L.drop (L.length - l) := by
    rw [List.drop_drop]
    congr 1
    omega
  conv_rhs => rw [← List.take_append_drop f L]
  rw [List.append_assoc]
  congr 1
  conv_rhs => rw [← List.take_append_drop (L.length - f - l) (L.drop f)]
  rw [h3]

/-- C7 counterexample: an input of 40 blank lines has line count at least
`first + last + minMiddle = 39`, yet `truncate_pre` returns it unchanged
(stripping empties it before the threshold test), so the "otherwise" branch
of the claim — output with strictly fewer visible lines — is violated. -/
theorem c7_counterexample :
    (splitLinesK (String.mk (List.replicate 40 '\n')).data).length = 40 ∧
      4 + 5 + 30 ≤ 40 ∧
      truncate_pre (String.mk (List.replicate 40 '\n')) 4 30 5
        = String.mk (List.replicate 40 '\n') :=
  ⟨by decide, by decide, by decide⟩

/-- C7 (amended): `truncate_pre` is the identity whenever the *stripped*
input's line count is strictly below `first + last + min_middle` (the raw
input may have more lines); once the stripped count reaches the threshold,
the first `first` stripped lines open the output verbatim and every stripped
line still occurs somewhere in the output — collapsing hides but never drops
stripped content. -/
theorem c7_truncate_amended (pre : String) (first last min_middle : Nat) :
    ((splitlinesKeep (pyStrip pre)).length < first + min_middle + last →
      truncate_pre pre first last min_middle = pre) ∧
    (first + min_middle + last ≤ (splitlinesKeep (pyStrip pre)).length →
      (String.join ((splitlinesKeep (pyStrip pre)).take first)).data
          <+: (truncate_pre pre first last min_middle).data ∧
      ∀ ln ∈ splitlinesKeep (pyStrip pre),
        ln.data <:+: (truncate_pre pre first last min_middle).data) := by
  constructor
  · intro h
    rw [truncate_pre, if_pos h]
  · intro h
    have hnotlt : ¬ (splitlinesKeep (pyStrip pre)).length
        < first + min_middle + last := not_lt.mpr h
    rw [truncate_pre, if_neg hnotlt]
    set lines := splitlinesKeep (pyStrip pre) with hlines
    set middle_bit := if last = 0 then ([] : List String)
      else (lines.drop first).take (lines.length - first - last) with hmid
    set pieces := ((split_to_sections middle_bit).map sectionPieces).flatten
      with hpieces
    set last_bit := if last = 0 then lines
      else lines.drop (lines.length - last) with hlast
    constructor
    · rw [sjoin_data, sjoin_data, List.map_append, List.map_append,
        List.flatten_append, List.flatten_append, List.append_assoc]
      exact ⟨_, rfl⟩
    · intro ln hln
      have hcover : ∃ p ∈ lines.take first ++ pieces ++ last_bit,
          ln.data <:+: p.data := by
        by_cases hl0 : last = 0
        · refine ⟨ln, ?_, List.infix_refl _⟩
          rw [List.mem_append, hlast, if_pos hl0]
          exact Or.inr hln
        · have hdec := take_middle_drop lines first last (by omega)
          have hln' : ln ∈ lines.take first ++
              ((lines.drop first).take (lines.length - first - last)
                ++ lines.drop (lines.length - last)) := by
            rw [← List.append_assoc, hdec]
            exact hln
          rw [List.mem_append, List.mem_append] at hln'
          rcases hln' with hln' | hln' | hln'
          · exact ⟨ln, by simp [hln'], List.infix_refl _⟩
          · -- a middle line sits inside some section's pieces
            have hmem : ln ∈ middle_bit := by
              rw [hmid, if_neg hl0]
              exact hln'
            have hsec : ∃ sec ∈ split_to_sections middle_bit, ln ∈ sec := by
              have := split_to_sections_flatten middle_bit
              rw [← this] at hmem
              exact List.mem_flatten.mp hmem
            obtain ⟨sec, hsec1, hsec2⟩ := hsec
            have hsecne : sec ≠ [] :=
              split_to_sections_aux_ne_nil middle_bit [] []
                (fun x hx => absurd hx (List.not_mem_nil x)) sec hsec1
            obtain ⟨p, hp1, hp2⟩ := sectionPieces_covers hsecne ln hsec2
            refine ⟨p, ?_, hp2⟩
            rw [List.mem_append, List.mem_append]
            refine Or.inl (Or.inr ?_)
            rw [hpieces]
            rw [List.mem_flatten]
            exact ⟨sectionPieces sec, List.mem_map_of_mem _ hsec1, hp1⟩
          · refine ⟨ln, ?_, List.infix_refl _⟩
            rw [List.mem_append, hlast, if_neg hl0]
            exact Or.inr hln'
      obtain ⟨p, hp, hinf⟩ := hcover
      exact hinf.trans (infix_sjoin_of_mem hp)

/-- C7 witness: part one applied to a short input, part two applied to a
three-line input truncated with `first = last = min_middle = 1` — the middle
line is hidden, not dropped. -/
theorem c7_truncate_amended_witness :
    truncate_pre "x" 4 30 5 = "x" ∧
      ("b\n" : String).data <:+: (truncate_pre "a\nb\nc\n" 1 1 1).data :=
  ⟨(c7_truncate_amended "x" 4 30 5).1 (by decide),
    ((c7_truncate_amended "a\nb\nc\n" 1 1 1).2 (by decide)).2 "b\n" (by decide)⟩

/-! ### C10: `Report.parse_email`

The three line patterns, matched against the rstripped line in order with
`continue` after a hit: `DATE_PATTERN` is `'^Date: (.*)$'`, `TITLE_PATTERN`
captures a `[digits]` prefix, optional whitespace and an upper-case letter
(the group runs to the first newline, as `.` does not cross one), and
`URL_PATTERN` requires leading whitespace, a fixed archive prefix, and a
`.html`-terminated path (the greedy `.*` puts the group end at the last
`.html` occurrence before a newline). -/

/-- `DATE_PATTERN.match(line)`, returning the captured group. -/
def dateMatch (l : String) : Option String :=
  if pyStartsWith l "Date: " then
    let core := chompNL (l.data.drop 6)
    if core.contains '\n' then none else some ⟨core⟩
  else none

/-- `TITLE_PATTERN.match(line)`, returning the captured group. -/
def titleMatch (l : String) : Option String :=
  match l.data with
  | '[' :: rest =>
    let ds := rest.takeWhile Char.isDigit
    let r2 := rest.dropWhile Char.isDigit
    if ds.isEmpty then none
    else
      match r2 with
      | ']' :: r3 =>
        let ws := r3.takeWhile isPySpace
        let r4 := r3.dropWhile isPySpace
        match r4 with
        | c :: r5 =>
          if 'A' ≤ c ∧ c ≤ 'Z' then
            some ⟨'[' :: ds ++ ']' :: ws ++ c :: r5.takeWhile (fun a => a != '\n')⟩
          else none
        | [] => none
      | _ => none
  | _ => none

/-- Index (from the end of `mid`) of the last position where `pat` ends. -/
def findDropIdx (pat : List Char) : List Char → Option Nat
  | [] => if pat.isPrefixOf ([] : List Char) then some 0 else none
  | c :: t =>
    if pat.isPrefixOf (c :: t) then some 0
    else (findDropIdx pat t).map (fun i => i + 1)

/-- End position of the last `.html` occurrence in `mid`. -/
def lastHtmlEnd (mid : List Char) : Option Nat :=
  (findDropIdx ".html".data.reverse mid.reverse).map (fun i => mid.length - i)

/-- Match a regex fragment made of literal characters and `.` wildcards
(which accept any character but a newline) against the head of the input,
returning the consumed input characters and the remainder. -/
def matchLitDot : List Char → List Char → Option (List Char × List Char)
  | [], input => some ([], input)
  | _ :: _, [] => none
  | p :: ps, c :: cs =>
    if (if p = '.' then c ≠ '\n' else c = p) then
      (matchLitDot ps cs).map (fun r => (c :: r.1, r.2))
    else none

/-- `URL_PATTERN.match(line)`, returning the captured group.  The dots inside
`mail.zope.org` are regex wildcards, so the prefix is matched with
`matchLitDot`; the greedy trailing `.*` puts the group end at the last
`.html` occurrence before a newline. -/
def urlMatch (l : String) : Option String :=
  let ws := l.data.takeWhile isPySpace
  let rest := l.data.dropWhile isPySpace
  if ws.isEmpty then none
  else
    match matchLitDot "https://mail.zope.org/pipermail/zope-tests/".data rest with
    | none => none
    | some (consumed, tail) =>
      let mid := tail.takeWhile (fun a => a != '\n')
      match lastHtmlEnd mid with
      | none => none
      | some k => some ⟨consumed ++ mid.take k⟩

/-- The loop state of `Report.parse_email`: the report's date, the running
title, and the `Failure(title, url)` records created so far. -/
structure PEState where
  date : String
  title : String
  failures : List (String × String)
  deriving DecidableEq, Repr

/-- One iteration of the `for line in email_lines` loop: rstrip, then try the
three patterns in order, each hit ending the iteration. -/
def parse_email_step (acc : PEState) (line : String) : PEState :=
  let l := pyRStrip line
  match dateMatch l with
  | some d => { acc with date := d }
  | none =>
    match titleMatch l with
    | some t => { acc with title := t }
    | none =>
      match urlMatch l with
      | some u => { acc with failures := acc.failures ++ [(acc.title, u)] }
      | none => acc

/-- `Report.parse_email`, starting from the sentinel date and title. -/
def parse_email (lines : List String) : PEState :=
  lines.foldl parse_email_step
    { date := "<unknown date>", title := "<unknown title>", failures := [] }

/-- Modelled from the claim's words: the title a line contributes under the
scan precedence — its `TITLE_PATTERN` group when the rstripped line is a
title line and not a date line. -/
def titleLineVal (line : String) : Option String :=
  if dateMatch (pyRStrip line) = none then titleMatch (pyRStrip line) else none

/-- Modelled from the claim's words: the URL a line contributes — its
`URL_PATTERN` group when the rstripped line is neither a date nor a title
line. -/
def urlLineVal (line : String) : Option String :=
  if dateMatch (pyRStrip line) = none ∧ titleMatch (pyRStrip line) = none then
    urlMatch (pyRStrip line)
  else none

/-- Modelled from the claim's words: the most recent title line strictly
before index `j`, else the seed. -/
def lastTitleBeforeSeed (lines : List String) (j : Nat) (seed : String) : String :=
  ((lines.take j).reverse.findSome? titleLineVal).getD seed

/-- Modelled from the claim's words: one `(title, url)` record per URL line,
its title the most recent preceding title line (else the seed). -/
def specFailuresSeed (lines : List String) (seed : String) : List (String × String) :=
  (List.range lines.length).filterMap (fun j =>
    match lines.get? j with
    | none => none
    | some line => (urlLineVal line).map (fun u => (lastTitleBeforeSeed lines j seed, u)))

/-- `findSome?` over an append scans the left part first. -/
theorem findSome?_append {α β : Type} (f : α → Option β) (a b : List α) :
    (a ++ b).findSome? f
      = match a.findSome? f with
        | some x => some x
        | none => b.findSome? f := by
  induction a with
  | nil => rfl
  | cons x t ih =>
    rw [List.cons_append, List.findSome?_cons, List.findSome?_cons]
    cases hfx : f x
    · rw [ih]
    · rfl

/-- Shifting `lastTitleBeforeSeed` across the head line updates the seed
exactly when the head is a title line. -/
theorem lastSeed_cons (line : String) (rest : List String) (j : Nat) (seed : String) :
    lastTitleBeforeSeed (line :: rest) (j + 1) seed
      = lastTitleBeforeSeed rest j (match titleLineVal line with
          | some tt => tt
          | none => seed) := by
  unfold lastTitleBeforeSeed
  rw [List.take_succ_cons, List.reverse_cons, findSome?_append]
  cases htv : titleLineVal line with
  | none =>
    rw [List.findSome?_cons]
    rw [htv]
    cases hx : (rest.take j).reverse.findSome? titleLineVal <;> simp [hx]
  | some tt =>
    rw [List.findSome?_cons]
    rw [htv]
    cases hx : (rest.take j).reverse.findSome? titleLineVal <;> simp [hx]

/-- Unfolding the spec record list across the head line. -/
theorem specSeed_cons (line : String) (rest : List String) (seed : String) :
    specFailuresSeed (line :: rest) seed
      = (match urlLineVal line with
          | some u => [(seed, u)]
          | none => []) ++
        specFailuresSeed rest (match titleLineVal line with
          | some tt => tt
          | none => seed) := by
  unfold specFailuresSeed
  rw [show (line :: rest).length = rest.length + 1 from rfl,
    List.range_succ_eq_map, List.filterMap_cons]
  have hshift : (List.filterMap (fun j =>
      match (line :: rest).get? j with
      | none => none
      | some ln => (urlLineVal ln).map
          (fun u => (lastTitleBeforeSeed (line :: rest) j seed, u)))
      ((List.range rest.length).map Nat.succ))
      = List.filterMap (fun j =>
        match rest.get? j with
        | none => none
        | some ln => (urlLineVal ln).map (fun u =>
            (lastTitleBeforeSeed rest j (match titleLineVal line with
              | some tt => tt
              | none => seed), u)))
        (List.range rest.length) := by
    rw [List.filterMap_map]
    refine List.filterMap_congr ?_
    intro j hj
    show (match (line :: rest).get? (j + 1) with
      | none => none
      | some ln => (urlLineVal ln).map
          (fun u => (lastTitleBeforeSeed (line :: rest) (j + 1) seed, u))) = _
    rw [List.get?_cons_succ, lastSeed_cons]
  cases hu : urlLineVal line with
  | none =>
    rw [hshift]
    have h0 : (match (line :: rest).get? 0 with
        | none => none
        | some ln => (urlLineVal ln).map
            (fun u => (lastTitleBeforeSeed (line :: rest) 0 seed, u)))
        = (none : Option (String × String)) := by
      show (urlLineVal line).map _ = none
      rw [hu]
      rfl
    rw [h0]
    rfl
  | some u =>
    rw [hshift]
    have h0 : (match (line :: rest).get? 0 with
        | none => none
        | some ln => (urlLineVal ln).map
            (fun u => (lastTitleBeforeSeed (line :: rest) 0 seed, u)))
        = some (seed, u) := by
      show (urlLineVal line).map _ = some (seed, u)
      rw [hu]
      rfl
    rw [h0]
    rfl

/-- The fold of `parse_email` refines the spec record list. -/
theorem parse_email_fold (lines : List String) :
    ∀ d t fs, (lines.foldl parse_email_step
        { date := d, title := t, failures := fs }).failures
      = fs ++ specFailuresSeed lines t := by
  induction lines with
  | nil =>
    intro d t fs
    simp [specFailuresSeed]
  | cons line rest ih =>
    intro d t fs
    rw [List.foldl_cons, specSeed_cons]
    cases hd : dateMatch (pyRStrip line) with
    | some dd =>
      have hstep : parse_email_step { date := d, title := t, failures := fs } line
          = { date := dd, title := t, failures := fs } := by
        simp only [parse_email_step]
        rw [hd]
      have htv : titleLineVal line = none := by
        rw [titleLineVal, if_neg (by rw [hd]; exact fun h => Option.noConfusion h)]
      have huv : urlLineVal line = none := by
        rw [urlLineVal,
          if_neg (by rintro ⟨h1, -⟩; rw [hd] at h1; exact Option.noConfusion h1)]
      rw [hstep, htv, huv, ih]
      rfl
    | none =>
      cases ht : titleMatch (pyRStrip line) with
      | some tt =>
        have hstep : parse_email_step { date := d, title := t, failures := fs } line
            = { date := d, title := tt, failures := fs } := by
          simp only [parse_email_step]
          rw [hd, ht]
        have htv : titleLineVal line = some tt := by
          rw [titleLineVal, if_pos hd, ht]
        have huv : urlLineVal line = none := by
          rw [urlLineVal,
            if_neg (by rintro ⟨-, h2⟩; rw [ht] at h2; exact Option.noConfusion h2)]
        rw [hstep, htv, huv, ih]
        rfl
      | none =>
        cases hu : urlMatch (pyRStrip line) with
        | some u =>
          have hstep : parse_email_step { date := d, title := t, failures := fs } line
              = { date := d, title := t, failures := fs ++ [(t, u)] } := by
            simp only [parse_email_step]
            rw [hd, ht, hu]
          have htv : titleLineVal line = none := by
            rw [titleLineVal, if_pos hd, ht]
          have huv : urlLineVal line = some u := by
            rw [urlLineVal, if_pos ⟨hd, ht⟩, hu]
          rw [hstep, htv, huv, ih]
          simp
        | none =>
          have hstep : parse_email_step { date := d, title := t, failures := fs } line
              = { date := d, title := t, failures := fs } := by
            simp only [parse_email_step]
            rw [hd, ht, hu]
          have htv : titleLineVal line = none := by
            rw [titleLineVal, if_pos hd, ht]
          have huv : urlLineVal line = none := by
            rw [urlLineVal, if_pos ⟨hd, ht⟩, hu]
          rw [hstep, htv, huv, ih]
          rfl

/-- A date line starts with `'D'`. -/
theorem dateMatch_head {l : String} {d : String} (h : dateMatch l = some d) :
    ∃ t, l.data = 'D' :: t := by
  rw [dateMatch] at h
  split at h
  · next hcond =>
    rw [pyStartsWith, decide_eq_true_iff] at hcond
    obtain ⟨t, ht⟩ := hcond
    exact ⟨"ate: ".data ++ t, by rw [← ht]; rfl⟩
  · exact absurd h (by simp)

/-- A title line starts with `'['`. -/
theorem titleMatch_head {l : String} {t : String} (h : titleMatch l = some t) :
    ∃ r, l.data = '[' :: r := by
  unfold titleMatch at h
  split at h
  · next rest heq => exact ⟨rest, heq⟩
  · exact absurd h (by simp)

/-- A URL line starts with a whitespace character. -/
theorem urlMatch_head {l : String} {u : String} (h : urlMatch l = some u) :
    ∃ c r, l.data = c :: r ∧ isPySpace c = true := by
  simp only [urlMatch] at h
  split at h
  · exact absurd h (by simp)
  · next hws =>
    rcases hld : l.data with _ | ⟨c, r⟩
    · rw [hld] at hws
      simp at hws
    · refine ⟨c, r, rfl, ?_⟩
      by_contra hc
      rw [Bool.not_eq_true] at hc
      rw [hld, List.takeWhile_cons, hc] at hws
      simp at hws

/-- The date-precedence guard in `titleLineVal` is redundant: a date line
never matches the title pattern. -/
theorem titleLineVal_eq (line : String) :
    titleLineVal line = titleMatch (pyRStrip line) := by
  rw [titleLineVal]
  by_cases hd : dateMatch (pyRStrip line) = none
  · rw [if_pos hd]
  · rw [if_neg hd]
    cases ht : titleMatch (pyRStrip line) with
    | none => rfl
    | some t =>
      exfalso
      rcases hdm : dateMatch (pyRStrip line) with _ | d
      · exact hd hdm
      · obtain ⟨t2, ht2⟩ := dateMatch_head hdm
        obtain ⟨r2, hr2⟩ := titleMatch_head ht
        rw [ht2] at hr2
        injection hr2 with h1 h2
        exact absurd h1 (by decide)

/-- The precedence guards in `urlLineVal` are redundant: a URL line starts
with whitespace, so it is never a date or title line. -/
theorem urlLineVal_eq (line : String) :
    urlLineVal line = urlMatch (pyRStrip line) := by
  rw [urlLineVal]
  by_cases hg : dateMatch (pyRStrip line) = none ∧ titleMatch (pyRStrip line) = none
  · rw [if_pos hg]
  · rw [if_neg hg]
    cases hu : urlMatch (pyRStrip line) with
    | none => rfl
    | some u =>
      exfalso
      obtain ⟨c, r, hcr, hsp⟩ := urlMatch_head hu
      refine hg ⟨?_, ?_⟩
      · rcases hdm : dateMatch (pyRStrip line) with _ | d
        · rfl
        · exfalso
          obtain ⟨t2, ht2⟩ := dateMatch_head hdm
          rw [ht2] at hcr
          injection hcr with h1 h2
          rw [← h1] at hsp
          exact absurd hsp (by decide)
      · rcases htm : titleMatch (pyRStrip line) with _ | t
        · rfl
        · exfalso
          obtain ⟨r2, hr2⟩ := titleMatch_head htm
          rw [hr2] at hcr
          injection hcr with h1 h2
          rw [← h1] at hsp
          exact absurd hsp (by decide)

/-- C10: every FailureRecord created by email parsing pairs a matching URL
line with the most recent preceding title line, and with the fixed sentinel
`'<unknown title>'` when no title line precedes it. -/
theorem c10_title_assignment (lines : List String) :
    (parse_email lines).failures = specFailuresSeed lines "<unknown title>" := by
  rw [parse_email, parse_email_fold]
  rfl

end Janitor
